import Mathlib

/-!
# NekoAI-JS — verification of the metadata-normalization and streaming-decode core

Shallow embedding of the TypeScript sources under `src/`:

* `src/utils/*.ts` (`deduplicateTags`, `calculateCost`, `prepareMetadataForApi`,
  `convertObjectKeysToSnakeCase`, `convertV4Prompt`, `StreamingMsgpackParser`),
* `src/client.ts` (`MetadataProcessor` and its handlers).

JavaScript `number` arithmetic is modelled over `ℚ` (exact arithmetic; IEEE-754
rounding of the double operations is abstracted away), JS strings over Lean
`String` (with `toLowerCase` modelled by the ASCII `Char.toLower`), and
optional / `undefined` fields over `Option`.  Fields that distinguish
`undefined` from `null` use `Option (Option _)`.
-/

set_option maxRecDepth 10000

namespace NekoAI

/-! ## Tag machinery: `deduplicateTags` (src/utils, "Tag Normalizer")

The JS source:

```js
export function deduplicateTags(prompt: string): string {
  if (!prompt) return prompt;
  const seen = new Set<string>();
  const deduped: string[] = [];
  for (const tag of prompt.split(",")) {
    const trimmed = tag.trim();
    if (!trimmed) continue;
    const lower = trimmed.toLowerCase();
    if (!seen.has(lower)) { seen.add(lower); deduped.push(trimmed); }
  }
  return deduped.join(", ");
}
```

We embed it over `List Char` (JS `split(",")` splits at every comma character;
`trim` strips leading/trailing whitespace). -/

/-- `String.prototype.split(",")` over a character list. -/
def splitComma : List Char → List (List Char)
  | [] => [[]]
  | c :: cs =>
    if c = ',' then [] :: splitComma cs
    else
      match splitComma cs with
      | [] => [[c]]
      | s :: ss => (c :: s) :: ss

/-- `String.prototype.trim` over a character list (whitespace model:
`Char.isWhitespace`): drop leading and trailing whitespace. -/
def trimChars (l : List Char) : List Char :=
  (l.dropWhile Char.isWhitespace).rdropWhile Char.isWhitespace

/-- `String.prototype.toLowerCase`, ASCII model. -/
def lowerChars (l : List Char) : List Char :=
  l.map Char.toLower

/-- The dedup loop of `deduplicateTags`: `seen` collects the lower-cased keys
of the tags processed so far; empty (after trim) segments are dropped. -/
def dedupAux (seen : List (List Char)) : List (List Char) → List (List Char)
  | [] => []
  | t :: ts =>
    let tr := trimChars t
    if tr = [] then dedupAux seen ts
    else if lowerChars tr ∈ seen then dedupAux seen ts
    else tr :: dedupAux (lowerChars tr :: seen) ts

/-- `Array.prototype.join(", ")` over character lists. -/
def joinTags : List (List Char) → List Char
  | [] => []
  | [t] => t
  | t :: ts => t ++ ',' :: ' ' :: joinTags ts

/-- Character-list core of `deduplicateTags`. -/
def dedupeChars (l : List Char) : List Char :=
  joinTags (dedupAux [] (splitComma l))

/-- `deduplicateTags` from `src/utils` (tag normalizer). -/
def deduplicateTags (prompt : String) : String :=
  if prompt = "" then prompt
  else ⟨dedupeChars prompt.data⟩

theorem dedupeChars_nil : dedupeChars [] = [] := rfl

/-! ### Combinatorial facts about the tag machinery -/

theorem splitComma_ne_nil (l : List Char) : splitComma l ≠ [] := by
  cases l with
  | nil => simp [splitComma]
  | cons c cs =>
    simp only [splitComma]
    split
    · simp
    · split <;> simp

theorem splitComma_append (a b : List Char) :
    splitComma (a ++ ',' :: b) = splitComma a ++ splitComma b := by
  induction a with
  | nil => simp [splitComma]
  | cons c a ih =>
    by_cases hc : c = ','
    · subst hc
      show splitComma (',' :: (a ++ ',' :: b)) = splitComma (',' :: a) ++ splitComma b
      simp only [splitComma, if_pos rfl, ih]
      rfl
    · show splitComma (c :: (a ++ ',' :: b)) = splitComma (c :: a) ++ splitComma b
      cases ha : splitComma a with
      | nil => exact absurd ha (splitComma_ne_nil a)
      | cons s ss =>
        simp only [splitComma, if_neg hc, ih, ha]
        simp

theorem splitComma_eq_singleton : ∀ {l : List Char}, ',' ∉ l → splitComma l = [l] := by
  intro l
  induction l with
  | nil => intro _; rfl
  | cons c cs ih =>
    intro h
    simp only [List.mem_cons, not_or] at h
    have h1 : c ≠ ',' := fun e => h.1 e.symm
    simp only [splitComma, if_neg h1, ih h.2]

theorem not_comma_of_mem_splitComma :
    ∀ {l t : List Char}, t ∈ splitComma l → ',' ∉ t := by
  intro l
  induction l with
  | nil =>
    intro t ht
    simp only [splitComma, List.mem_singleton] at ht
    subst ht; simp
  | cons c cs ih =>
    intro t ht
    by_cases hc : c = ','
    · subst hc
      simp only [splitComma, reduceIte, List.mem_cons] at ht
      rcases ht with h | h
      · subst h; simp
      · exact ih h
    · cases ha : splitComma cs with
      | nil => exact absurd ha (splitComma_ne_nil cs)
      | cons s ss =>
        simp only [splitComma, if_neg hc, ha, List.mem_cons] at ht
        rcases ht with h | h
        · subst h
          intro hm
          rcases List.mem_cons.1 hm with h | h
          · exact hc h.symm
          · exact ih (ha ▸ List.mem_cons_self s ss) h
        · exact ih (ha ▸ List.mem_cons_of_mem s h)

theorem trimChars_cons_space (l : List Char) :
    trimChars (' ' :: l) = trimChars l := by
  have hws : ' '.isWhitespace = true := by decide
  simp [trimChars, List.dropWhile_cons, hws]

theorem trimChars_subset {l : List Char} : trimChars l ⊆ l := by
  intro c hc
  have h1 : c ∈ l.dropWhile Char.isWhitespace :=
    (List.rdropWhile_prefix _ _).subset hc
  exact (List.dropWhile_suffix _).subset h1

theorem trimChars_idem (l : List Char) :
    trimChars (trimChars l) = trimChars l := by
  have key : ∀ (y : List Char), List.dropWhile Char.isWhitespace y = y →
      trimChars (List.rdropWhile Char.isWhitespace y) =
        List.rdropWhile Char.isWhitespace y := by
    intro y hy
    have h1 : List.dropWhile Char.isWhitespace (List.rdropWhile Char.isWhitespace y) =
        List.rdropWhile Char.isWhitespace y := by
      cases hz : List.rdropWhile Char.isWhitespace y with
      | nil => simp
      | cons a as =>
        obtain ⟨t, ht⟩ := List.rdropWhile_prefix Char.isWhitespace y
        rw [hz] at ht
        have ha : a.isWhitespace = false := by
          cases haeq : a.isWhitespace with
          | false => rfl
          | true =>
            exfalso
            have hy2 := hy
            rw [← ht] at hy2
            rw [List.cons_append, List.dropWhile_cons, haeq, if_pos rfl] at hy2
            have hle := (List.dropWhile_sublist (l := as ++ t) Char.isWhitespace).length_le
            rw [hy2] at hle
            simp at hle
        rw [List.dropWhile_cons, ha]
        simp
    unfold trimChars
    rw [h1, List.rdropWhile_idempotent]
  exact key (l.dropWhile Char.isWhitespace)
    (List.dropWhile_idempotent Char.isWhitespace l)

/-- The `if (!prompt)` early return is behaviourally redundant:
`deduplicateTags` always agrees with the char-list core. -/
theorem deduplicateTags_eq_core (s : String) :
    deduplicateTags s = ⟨dedupeChars s.data⟩ := by
  unfold deduplicateTags
  split
  · rename_i h
    subst h
    rfl
  · rfl

/-- The trimmed non-empty segments of a segment list. -/
def tagsSegs (ts : List (List Char)) : List (List Char) :=
  (ts.map trimChars).filter (· ≠ [])

/-- The (trimmed, non-empty) tags of a character list. -/
def tagsOf (l : List Char) : List (List Char) :=
  tagsSegs (splitComma l)

/-- The dedup loop restricted to pre-trimmed, non-empty segments. -/
def dedupKeep (seen : List (List Char)) : List (List Char) → List (List Char)
  | [] => []
  | t :: ts =>
    if lowerChars t ∈ seen then dedupKeep seen ts
    else t :: dedupKeep (lowerChars t :: seen) ts

/-- Lower-cased keys of a tag list. -/
def keysOf (l : List (List Char)) : List (List Char) :=
  l.map lowerChars

theorem tagsSegs_append (a b : List (List Char)) :
    tagsSegs (a ++ b) = tagsSegs a ++ tagsSegs b := by
  simp [tagsSegs, List.filter_append]

theorem tagsOf_append (a b : List Char) :
    tagsOf (a ++ ',' :: b) = tagsOf a ++ tagsOf b := by
  simp [tagsOf, splitComma_append, tagsSegs_append]

theorem tagsOf_cons_space (l : List Char) :
    tagsOf (' ' :: l) = tagsOf l := by
  have hsp : (' ' : Char) ≠ ',' := by decide
  cases ha : splitComma l with
  | nil => exact absurd ha (splitComma_ne_nil l)
  | cons s ss =>
    simp only [tagsOf, splitComma, if_neg hsp, ha]
    simp only [tagsSegs, List.map_cons, List.filter_cons, trimChars_cons_space]

theorem tagsSegs_cons_of_nil {t : List Char} (ts : List (List Char))
    (htr : trimChars t = []) : tagsSegs (t :: ts) = tagsSegs ts := by
  simp [tagsSegs, htr]

theorem tagsSegs_cons_of_ne_nil {t : List Char} (ts : List (List Char))
    (htr : trimChars t ≠ []) : tagsSegs (t :: ts) = trimChars t :: tagsSegs ts := by
  simp [tagsSegs, htr]

theorem dedupAux_eq_dedupKeep (seen : List (List Char)) (ts : List (List Char)) :
    dedupAux seen ts = dedupKeep seen (tagsSegs ts) := by
  induction ts generalizing seen with
  | nil => rfl
  | cons t ts ih =>
    by_cases htr : trimChars t = []
    · have l1 : dedupAux seen (t :: ts) = dedupAux seen ts := by
        simp [dedupAux, htr]
      rw [l1, ih, tagsSegs_cons_of_nil ts htr]
    · rw [tagsSegs_cons_of_ne_nil ts htr]
      by_cases hm : lowerChars (trimChars t) ∈ seen
      · have l1 : dedupAux seen (t :: ts) = dedupAux seen ts := by
          simp [dedupAux, htr, hm]
        have r1 : dedupKeep seen (trimChars t :: tagsSegs ts) =
            dedupKeep seen (tagsSegs ts) := by
          simp [dedupKeep, hm]
        rw [l1, r1, ih]
      · have l1 : dedupAux seen (t :: ts) =
            trimChars t :: dedupAux (lowerChars (trimChars t) :: seen) ts := by
          simp [dedupAux, htr, hm]
        have r1 : dedupKeep seen (trimChars t :: tagsSegs ts) =
            trimChars t :: dedupKeep (lowerChars (trimChars t) :: seen) (tagsSegs ts) := by
          simp [dedupKeep, hm]
        rw [l1, r1, ih]

theorem dedupKeep_congr {S T : List (List Char)} (l : List (List Char))
    (h : ∀ k, k ∈ S ↔ k ∈ T) : dedupKeep S l = dedupKeep T l := by
  induction l generalizing S T with
  | nil => rfl
  | cons t ts ih =>
    simp only [dedupKeep]
    by_cases hm : lowerChars t ∈ S
    · rw [if_pos hm, if_pos ((h _).1 hm)]
      exact ih h
    · rw [if_neg hm, if_neg (fun hc => hm ((h _).2 hc))]
      refine congrArg _ (ih fun k => ?_)
      simp only [List.mem_cons]
      exact or_congr Iff.rfl (h k)

theorem dedupKeep_append (S : List (List Char)) (a b : List (List Char)) :
    dedupKeep S (a ++ b) = dedupKeep S a ++ dedupKeep (keysOf a ++ S) b := by
  induction a generalizing S with
  | nil => simp [dedupKeep, keysOf]
  | cons t ts ih =>
    by_cases hm : lowerChars t ∈ S
    · have l1 : dedupKeep S ((t :: ts) ++ b) = dedupKeep S (ts ++ b) := by
        simp [dedupKeep, hm]
      have r1 : dedupKeep S (t :: ts) = dedupKeep S ts := by
        simp [dedupKeep, hm]
      rw [l1, r1, ih]
      refine congrArg _ (dedupKeep_congr b fun k => ?_)
      simp only [keysOf, List.map_cons, List.cons_append, List.mem_cons,
        List.mem_append]
      constructor
      · tauto
      · intro hk
        rcases hk with hk | hk | hk
        · exact Or.inr (hk ▸ hm)
        · exact Or.inl hk
        · exact Or.inr hk
    · have l1 : dedupKeep S ((t :: ts) ++ b) =
          t :: dedupKeep (lowerChars t :: S) (ts ++ b) := by
        simp [dedupKeep, hm]
      have r1 : dedupKeep S (t :: ts) = t :: dedupKeep (lowerChars t :: S) ts := by
        simp [dedupKeep, hm]
      rw [l1, r1, ih, List.cons_append]
      refine congrArg _ (congrArg _ (dedupKeep_congr b fun k => ?_))
      simp only [keysOf, List.map_cons, List.mem_append, List.mem_cons]
      tauto

theorem dedupKeep_dedupKeep (S T : List (List Char)) (l : List (List Char)) :
    dedupKeep S (dedupKeep T l) = dedupKeep (S ++ T) l := by
  induction l generalizing S T with
  | nil => rfl
  | cons t ts ih =>
    simp only [dedupKeep]
    by_cases hT : lowerChars t ∈ T
    · rw [if_pos hT, if_pos (List.mem_append.2 (Or.inr hT))]
      exact ih S T
    · rw [if_neg hT]
      by_cases hS : lowerChars t ∈ S
      · rw [if_pos (List.mem_append.2 (Or.inl hS))]
        simp only [dedupKeep, if_pos hS]
        rw [ih S (lowerChars t :: T)]
        refine dedupKeep_congr ts fun k => ?_
        simp only [List.mem_append, List.mem_cons]
        constructor
        · rintro (h | h | h) <;> [tauto; skip; tauto]
          exact Or.inl (h ▸ hS)
        · tauto
      · rw [if_neg (fun hc => (List.mem_append.1 hc).elim hS hT)]
        simp only [dedupKeep, if_neg hS]
        rw [ih (lowerChars t :: S) (lowerChars t :: T)]
        refine congrArg _ (dedupKeep_congr ts fun k => ?_)
        simp only [List.mem_append, List.mem_cons]
        tauto

theorem dedupKeep_eq_nil {S : List (List Char)} {l : List (List Char)}
    (h : ∀ t ∈ l, lowerChars t ∈ S) : dedupKeep S l = [] := by
  induction l with
  | nil => rfl
  | cons t ts ih =>
    simp only [dedupKeep, if_pos (h t (List.mem_cons_self t ts))]
    exact ih fun u hu => h u (List.mem_cons_of_mem t hu)

theorem mem_of_mem_dedupKeep {S l : List (List Char)} {t : List Char}
    (h : t ∈ dedupKeep S l) : t ∈ l := by
  induction l generalizing S with
  | nil => simp [dedupKeep] at h
  | cons u us ih =>
    simp only [dedupKeep] at h
    by_cases hm : lowerChars u ∈ S
    · rw [if_pos hm] at h
      exact List.mem_cons_of_mem u (ih h)
    · rw [if_neg hm] at h
      rcases List.mem_cons.1 h with h | h
      · exact h ▸ List.mem_cons_self u us
      · exact List.mem_cons_of_mem u (ih h)

theorem lower_mem_keys_dedupKeep {S l : List (List Char)} {t : List Char}
    (h : t ∈ l) : lowerChars t ∈ keysOf (dedupKeep S l) ++ S := by
  induction l generalizing S with
  | nil => cases h
  | cons u us ih =>
    simp only [dedupKeep]
    by_cases hm : lowerChars u ∈ S
    · rw [if_pos hm]
      rcases List.mem_cons.1 h with h | h
      · exact List.mem_append.2 (Or.inr (h ▸ hm))
      · exact ih h
    · rw [if_neg hm]
      rcases List.mem_cons.1 h with h | h
      · subst h
        simp [keysOf]
      · have := ih (S := lowerChars u :: S) h
        simp only [keysOf, List.map_cons, List.mem_append, List.mem_cons] at this ⊢
        tauto

/-- Well-formed tag lists: every element is trimmed, non-empty and comma-free. -/
def OkTags (l : List (List Char)) : Prop :=
  ∀ t ∈ l, trimChars t = t ∧ t ≠ [] ∧ ',' ∉ t

theorem okTags_tagsOf (l : List Char) : OkTags (tagsOf l) := by
  intro t ht
  simp only [tagsOf, tagsSegs, List.mem_filter, List.mem_map] at ht
  obtain ⟨⟨seg, hseg, hts⟩, hne⟩ := ht
  subst hts
  refine ⟨trimChars_idem seg, by simpa using hne, fun hc => ?_⟩
  exact not_comma_of_mem_splitComma hseg (trimChars_subset hc)

theorem okTags_dedupKeep {S : List (List Char)} {l : List (List Char)}
    (h : OkTags l) : OkTags (dedupKeep S l) :=
  fun t ht => h t (mem_of_mem_dedupKeep ht)

theorem tagsOf_joinTags : ∀ {l : List (List Char)}, OkTags l → tagsOf (joinTags l) = l := by
  intro l
  induction l with
  | nil => intro _; rfl
  | cons t ts ih =>
    intro h
    have ht := h t (List.mem_cons_self t ts)
    have h1 : tagsOf t = [t] := by
      rw [tagsOf, splitComma_eq_singleton ht.2.2]
      show tagsSegs [t] = [t]
      simp [tagsSegs, ht.1, ht.2.1]
    cases ts with
    | nil => exact h1
    | cons u us =>
      have hrest : OkTags (u :: us) := fun v hv => h v (List.mem_cons_of_mem t hv)
      show tagsOf (t ++ ',' :: ' ' :: joinTags (u :: us)) = t :: u :: us
      rw [tagsOf_append, tagsOf_cons_space, ih hrest, h1]
      rfl

/-- `dedupeChars` through the tag view. -/
theorem dedupeChars_eq (l : List Char) :
    dedupeChars l = joinTags (dedupKeep [] (tagsOf l)) := by
  simp [dedupeChars, dedupAux_eq_dedupKeep, tagsOf]

theorem tagsOf_dedupeChars (l : List Char) :
    tagsOf (dedupeChars l) = dedupKeep [] (tagsOf l) := by
  rw [dedupeChars_eq]
  exact tagsOf_joinTags (okTags_dedupKeep (okTags_tagsOf l))

/-- Master lemma: dedup is idempotent. -/
theorem dedupeChars_idem (l : List Char) :
    dedupeChars (dedupeChars l) = dedupeChars l := by
  rw [dedupeChars_eq (dedupeChars l), tagsOf_dedupeChars, dedupKeep_dedupKeep,
    List.nil_append, dedupeChars_eq]

/-- Master lemma: re-prepending a fixed block `u` and re-deduplicating an
already deduplicated `u`-prefixed prompt is a no-op (negative-prompt preset
boilerplate survives a second normalization run unchanged). -/
theorem dedupeChars_prepend_stable (u n : List Char) :
    dedupeChars (u ++ ',' :: ' ' :: dedupeChars (u ++ ',' :: ' ' :: n)) =
      dedupeChars (u ++ ',' :: ' ' :: n) := by
  have hT : tagsOf (u ++ ',' :: ' ' :: n) = tagsOf u ++ tagsOf n := by
    rw [tagsOf_append, tagsOf_cons_space]
  have htags : tagsOf (u ++ ',' :: ' ' :: dedupeChars (u ++ ',' :: ' ' :: n)) =
      tagsOf u ++ dedupKeep [] (tagsOf u ++ tagsOf n) := by
    rw [tagsOf_append, tagsOf_cons_space, tagsOf_dedupeChars, hT]
  rw [dedupeChars_eq, htags, dedupeChars_eq (u ++ ',' :: ' ' :: n), hT]
  congr 1
  have e1 : dedupKeep [] (tagsOf u ++ dedupKeep [] (tagsOf u ++ tagsOf n)) =
      dedupKeep [] (tagsOf u) ++
        dedupKeep (keysOf (tagsOf u) ++ [])
          (dedupKeep [] (tagsOf u ++ tagsOf n)) :=
    dedupKeep_append _ _ _
  have e2 : dedupKeep (keysOf (tagsOf u) ++ [])
      (dedupKeep [] (tagsOf u ++ tagsOf n)) =
      dedupKeep ((keysOf (tagsOf u) ++ []) ++ []) (tagsOf u ++ tagsOf n) :=
    dedupKeep_dedupKeep _ _ _
  have e3 : dedupKeep ((keysOf (tagsOf u) ++ []) ++ []) (tagsOf u ++ tagsOf n) =
      dedupKeep ((keysOf (tagsOf u) ++ []) ++ []) (tagsOf u) ++
        dedupKeep (keysOf (tagsOf u) ++ ((keysOf (tagsOf u) ++ []) ++ []))
          (tagsOf n) :=
    dedupKeep_append _ _ _
  have e4 : dedupKeep ((keysOf (tagsOf u) ++ []) ++ []) (tagsOf u) = [] := by
    refine dedupKeep_eq_nil fun t ht => ?_
    simp only [List.append_nil, keysOf, List.mem_map]
    exact ⟨t, ht, rfl⟩
  have e5 : dedupKeep (keysOf (tagsOf u) ++ ((keysOf (tagsOf u) ++ []) ++ []))
      (tagsOf n) = dedupKeep (keysOf (tagsOf u) ++ []) (tagsOf n) :=
    dedupKeep_congr _ fun k => by simp
  have e6 : dedupKeep [] (tagsOf u ++ tagsOf n) =
      dedupKeep [] (tagsOf u) ++ dedupKeep (keysOf (tagsOf u) ++ []) (tagsOf n) :=
    dedupKeep_append _ _ _
  rw [e1, e2, e3, e4, e5, e6]
  simp

/-- Master lemma: re-appending a fixed comma-led suffix `q` (quality tags) to
an already deduplicated prompt that ends in `q`-derived tags is a no-op. -/
theorem dedupeChars_append_stable (p q : List Char) :
    dedupeChars (dedupeChars (p ++ ',' :: q) ++ ',' :: q) =
      dedupeChars (p ++ ',' :: q) := by
  have htags : tagsOf (dedupeChars (p ++ ',' :: q) ++ ',' :: q) =
      dedupKeep [] (tagsOf (p ++ ',' :: q)) ++ tagsOf q := by
    rw [tagsOf_append, tagsOf_dedupeChars]
  rw [dedupeChars_eq, htags, dedupeChars_eq (p ++ ',' :: q)]
  congr 1
  have e1 : dedupKeep [] (dedupKeep [] (tagsOf (p ++ ',' :: q)) ++ tagsOf q) =
      dedupKeep [] (dedupKeep [] (tagsOf (p ++ ',' :: q))) ++
        dedupKeep (keysOf (dedupKeep [] (tagsOf (p ++ ',' :: q))) ++ [])
          (tagsOf q) :=
    dedupKeep_append _ _ _
  have e2 : dedupKeep [] (dedupKeep [] (tagsOf (p ++ ',' :: q))) =
      dedupKeep [] (tagsOf (p ++ ',' :: q)) := by
    rw [dedupKeep_dedupKeep]
    rfl
  have e3 : dedupKeep (keysOf (dedupKeep [] (tagsOf (p ++ ',' :: q))) ++ [])
      (tagsOf q) = [] := by
    refine dedupKeep_eq_nil fun t ht => ?_
    have hmem : t ∈ tagsOf (p ++ ',' :: q) := by
      rw [tagsOf_append]
      exact List.mem_append.2 (Or.inr ht)
    exact lower_mem_keys_dedupKeep hmem
  rw [e1, e2, e3, List.append_nil]

/-! ### String-level corollaries used by the normalization pipeline -/

theorem deduplicateTags_idem (s : String) :
    deduplicateTags (deduplicateTags s) = deduplicateTags s := by
  rw [deduplicateTags_eq_core s, deduplicateTags_eq_core]
  exact congrArg String.mk (dedupeChars_idem s.data)

/-- Re-prepending the preset boilerplate `u ++ ", "` to an already
normalized negative prompt and deduplicating again is a no-op. -/
theorem deduplicateTags_prepend_stable (u n : String) :
    deduplicateTags (u ++ ", " ++ deduplicateTags (u ++ ", " ++ n)) =
      deduplicateTags (u ++ ", " ++ n) := by
  rw [deduplicateTags_eq_core (u ++ ", " ++ deduplicateTags (u ++ ", " ++ n)),
    deduplicateTags_eq_core (u ++ ", " ++ n)]
  refine congrArg String.mk ?_
  have h1 : (u ++ ", " ++ (⟨dedupeChars (u ++ ", " ++ n).data⟩ : String)).data =
      u.data ++ ',' :: ' ' :: dedupeChars (u.data ++ ',' :: ' ' :: n.data) := by
    simp [String.data_append]
  have h2 : (u ++ ", " ++ n).data = u.data ++ ',' :: ' ' :: n.data := by
    simp [String.data_append]
  rw [h1, h2]
  exact dedupeChars_prepend_stable u.data n.data

/-- Re-appending the comma-led quality-tag suffix `"," ++ r` to an already
normalized prompt and deduplicating again is a no-op. -/
theorem deduplicateTags_append_stable (p r : String) :
    deduplicateTags (deduplicateTags (p ++ ("," ++ r)) ++ ("," ++ r)) =
      deduplicateTags (p ++ ("," ++ r)) := by
  rw [deduplicateTags_eq_core (deduplicateTags (p ++ ("," ++ r)) ++ ("," ++ r)),
    deduplicateTags_eq_core (p ++ ("," ++ r))]
  refine congrArg String.mk ?_
  have h1 : ((⟨dedupeChars (p ++ ("," ++ r)).data⟩ : String) ++ ("," ++ r)).data =
      dedupeChars (p.data ++ ',' :: r.data) ++ ',' :: r.data := by
    simp [String.data_append]
  have h2 : (p ++ ("," ++ r)).data = p.data ++ ',' :: r.data := by
    simp [String.data_append]
  rw [h1, h2]
  exact dedupeChars_append_stable p.data r.data

/-! ## C7: the tag-dedupe contract, stated from the spec's words

"Splits on commas, trims each segment, drops empty segments, and removes any
segment whose case-insensitive form has already been seen, keeping the first
occurrence's original casing and the original relative order. Rejoins with
`", "`. Empty or absent input returns the input unchanged." -/

/-- Spec-side dedup pass: keep a segment when its case-insensitive form
differs from that of every segment kept so far (`kept` holds the kept
segments in their original casing and order). -/
def specKeep (kept : List (List Char)) : List (List Char) → List (List Char)
  | [] => []
  | t :: ts =>
    if lowerChars t ∈ kept.map lowerChars then specKeep kept ts
    else t :: specKeep (kept ++ [t]) ts

/-- The tag-dedupe contract as the spec words it: split on commas, trim,
drop empties, keep first case-insensitive occurrences, rejoin with ", ";
empty input is returned unchanged. -/
def dedupeSpec (s : String) : String :=
  if s = "" then s
  else
    ⟨joinTags (specKeep [] (((splitComma s.data).map trimChars).filter (· ≠ [])))⟩

theorem specKeep_eq_dedupKeep (kept l : List (List Char)) :
    specKeep kept l = dedupKeep (kept.map lowerChars) l := by
  induction l generalizing kept with
  | nil => rfl
  | cons t ts ih =>
    simp only [specKeep, dedupKeep]
    by_cases hm : lowerChars t ∈ kept.map lowerChars
    · rw [if_pos hm, if_pos hm, ih]
    · rw [if_neg hm, if_neg hm, ih]
      refine congrArg _ (dedupKeep_congr ts fun k => ?_)
      simp only [List.map_append, List.map_cons, List.map_nil, List.mem_append,
        List.mem_cons, List.mem_singleton]
      constructor
      · rintro (h | h)
        · exact Or.inr h
        · exact Or.inl (by simpa using h)
      · rintro (h | h)
        · exact Or.inr (by simpa using h)
        · exact Or.inl h

/-! ## Streaming msgpack parser (src/utils/http-utils.ts)

`StreamingMsgpackParser` buffers bytes and, once at least 4 bytes are
available, reads a big-endian 32-bit length prefix and waits for that many
body bytes; each complete body is sliced off and decoded.  Bytes are
modelled as `ℕ` (values of a `Uint8Array`), the msgpack decoding of one
complete record (`parseMsgpackMessage`, an external codec) is kept abstract:
`feedChunk` is modelled as returning the raw record bodies, and a decoded
event stream is any `List.filterMap decode` of those bodies. -/

structure ParserState where
  buffer : List Nat
  expectedMessageLength : Option Nat
deriving DecidableEq, Repr

/-- `DataView.getUint32(0, false)`: big-endian 32-bit read of 4 bytes. -/
def readBE32 (b0 b1 b2 b3 : Nat) : Nat :=
  ((b0 * 256 + b1) * 256 + b2) * 256 + b3

/-- The `while (true)` loop of `feedChunk`: repeatedly read a length prefix
(once ≥ 4 bytes are buffered) and slice off complete message bodies,
stopping when the buffered data is exhausted. -/
def drain (s : ParserState) : ParserState × List (List Nat) :=
  match s with
  | ⟨b0 :: b1 :: b2 :: b3 :: rest, none⟩ =>
    drain ⟨rest, some (readBE32 b0 b1 b2 b3)⟩
  | ⟨buffer, none⟩ => (⟨buffer, none⟩, [])
  | ⟨buffer, some n⟩ =>
    if _h : n ≤ buffer.length then
      let r := drain ⟨buffer.drop n, none⟩
      (r.1, buffer.take n :: r.2)
    else (⟨buffer, some n⟩, [])
termination_by 2 * s.buffer.length +
  (match s.expectedMessageLength with | some _ => 1 | none => 0)
decreasing_by
  · simp only [List.length_cons]
    omega
  · simp only [List.length_drop]
    omega

/-- `StreamingMsgpackParser.feedChunk`: append the chunk to the buffer and
drain all complete records, in order. -/
def feedChunk (s : ParserState) (chunk : List Nat) : ParserState × List (List Nat) :=
  drain ⟨s.buffer ++ chunk, s.expectedMessageLength⟩

/-- A fresh `StreamingMsgpackParser`. -/
def initParser : ParserState := ⟨[], none⟩

/-- Feed a sequence of chunks through one parser, concatenating the yielded
records. -/
def feedAll (s : ParserState) : List (List Nat) → ParserState × List (List Nat)
  | [] => (s, [])
  | c :: cs =>
    let r1 := feedChunk s c
    let r2 := feedAll r1.1 cs
    (r2.1, r1.2 ++ r2.2)

theorem drain_long (b0 b1 b2 b3 : Nat) (rest : List Nat) :
    drain ⟨b0 :: b1 :: b2 :: b3 :: rest, none⟩ =
      drain ⟨rest, some (readBE32 b0 b1 b2 b3)⟩ := by
  rw [drain]

theorem drain_short (buffer : List Nat) (h : buffer.length < 4) :
    drain ⟨buffer, none⟩ = (⟨buffer, none⟩, []) := by
  rcases buffer with _ | ⟨a, _ | ⟨b, _ | ⟨c, _ | ⟨d, rest⟩⟩⟩⟩
  · rw [drain]
    intro b0 b1 b2 b3 r hX
    simp at hX
  · rw [drain]
    intro b0 b1 b2 b3 r hX
    simp at hX
  · rw [drain]
    intro b0 b1 b2 b3 r hX
    simp at hX
  · rw [drain]
    intro b0 b1 b2 b3 r hX
    simp at hX
  · simp at h
    omega

theorem drain_ready (buffer : List Nat) (n : Nat) (h : n ≤ buffer.length) :
    drain ⟨buffer, some n⟩ =
      ((drain ⟨buffer.drop n, none⟩).1,
        buffer.take n :: (drain ⟨buffer.drop n, none⟩).2) := by
  conv_lhs => rw [drain]
  simp [h]

theorem drain_wait (buffer : List Nat) (n : Nat) (h : ¬ n ≤ buffer.length) :
    drain ⟨buffer, some n⟩ = (⟨buffer, some n⟩, []) := by
  conv_lhs => rw [drain]
  simp [h]

/-- Draining an extended buffer first replays the records of the original
buffer, then continues on the residual state with the extension appended. -/
theorem drain_append (st : ParserState) :
    ∀ x : List Nat,
      drain ⟨st.buffer ++ x, st.expectedMessageLength⟩ =
        ((drain ⟨(drain st).1.buffer ++ x, (drain st).1.expectedMessageLength⟩).1,
          (drain st).2 ++
            (drain ⟨(drain st).1.buffer ++ x,
              (drain st).1.expectedMessageLength⟩).2) := by
  induction st using drain.induct with
  | case1 b0 b1 b2 b3 rest ih =>
    intro x
    simp only [List.cons_append, drain_long]
    exact ih x
  | case2 buffer hne =>
    intro x
    have hlt : buffer.length < 4 := by
      rcases buffer with _ | ⟨a, _ | ⟨b, _ | ⟨c, _ | ⟨d, rest⟩⟩⟩⟩
      · simp
      · simp
      · simp
      · simp
      · exact absurd (hne a b c d rest rfl) not_false
    rw [drain_short buffer hlt]
    simp
  | case3 buffer n hn ih =>
    intro x
    have hn2 : n ≤ (buffer ++ x).length := by
      simp only [List.length_append]
      omega
    rw [drain_ready _ _ hn2, drain_ready _ _ hn,
      List.take_append_of_le_length hn, List.drop_append_of_le_length hn]
    rw [ih x]
    simp
  | case4 buffer n hn =>
    intro x
    rw [drain_wait _ _ hn]
    simp

/-- The state left behind by a drain is quiescent: draining it again yields
nothing (no buffered partial record is re-emitted). -/
theorem drain_drain (st : ParserState) : drain (drain st).1 = ((drain st).1, []) := by
  induction st using drain.induct with
  | case1 b0 b1 b2 b3 rest ih =>
    rw [drain_long]
    exact ih
  | case2 buffer hne =>
    have hlt : buffer.length < 4 := by
      rcases buffer with _ | ⟨a, _ | ⟨b, _ | ⟨c, _ | ⟨d, rest⟩⟩⟩⟩
      · simp
      · simp
      · simp
      · simp
      · exact absurd (hne a b c d rest rfl) not_false
    rw [drain_short buffer hlt]
    exact drain_short buffer hlt
  | case3 buffer n hn ih =>
    rw [drain_ready _ _ hn]
    exact ih
  | case4 buffer n hn =>
    rw [drain_wait _ _ hn]
    exact drain_wait _ _ hn

/-- Two successive `feedChunk` calls behave like one call on the
concatenated chunk. -/
theorem feedChunk_comp (s : ParserState) (c1 c2 : List Nat) :
    feedChunk s (c1 ++ c2) =
      ((feedChunk (feedChunk s c1).1 c2).1,
        (feedChunk s c1).2 ++ (feedChunk (feedChunk s c1).1 c2).2) := by
  unfold feedChunk
  have h := drain_append ⟨s.buffer ++ c1, s.expectedMessageLength⟩ c2
  simpa [List.append_assoc] using h

/-- Feeding a chunk list through one parser equals feeding the whole
concatenation in one call, from any quiescent state. -/
theorem feedAll_eq_feedChunk_flatten :
    ∀ (cs : List (List Nat)) (s : ParserState), drain s = (s, []) →
      feedAll s cs = feedChunk s cs.flatten := by
  intro cs
  induction cs with
  | nil =>
    intro s hq
    have hs : (⟨s.buffer ++ [], s.expectedMessageLength⟩ : ParserState) = s := by
      cases s
      simp
    simp only [feedAll, feedChunk, List.flatten_nil, hs, hq]
  | cons c cs ih =>
    intro s hq
    have hq1 : drain (feedChunk s c).1 = ((feedChunk s c).1, []) :=
      drain_drain ⟨s.buffer ++ c, s.expectedMessageLength⟩
    show ((feedAll (feedChunk s c).1 cs).1,
        (feedChunk s c).2 ++ (feedAll (feedChunk s c).1 cs).2) =
      feedChunk s (List.flatten (c :: cs))
    rw [ih _ hq1, List.flatten_cons, feedChunk_comp]

/-- C1.  For every byte stream and every way of splitting it into chunks
(including splits inside a 4-byte length prefix or inside a record body),
feeding the chunks to `StreamingMsgpackParser.feedChunk` in order yields
exactly the same record bodies — hence, for any record decoder, the same
decoded events in the same order — and the same final parser state (no
buffered partial record is dropped or duplicated) as feeding the whole
stream in a single `feedChunk` call.  (Proved for arbitrary streams, which
subsumes the well-formed two-record case of the spec.) -/
theorem C1_feedChunk_chunk_boundary_robust :
    ∀ (chunks : List (List Nat)),
      feedAll initParser chunks = feedChunk initParser chunks.flatten ∧
      ∀ (E : Type) (decode : List Nat → Option E),
        (feedAll initParser chunks).2.filterMap decode =
          (feedChunk initParser chunks.flatten).2.filterMap decode := by
  intro chunks
  have hq : drain initParser = (initParser, []) := drain_short [] (by simp)
  have h := feedAll_eq_feedChunk_flatten chunks initParser hq
  exact ⟨h, fun E decode => by rw [h]⟩

/-! ## Data model (src/constants.ts, src/types.ts)

Enums from `src/constants.ts`; the `Metadata` parameter object from
`src/types.ts`.  `V4_5` / `V4_5_INP` (`nai-diffusion-4-5-full`) are referenced
throughout `client.ts`; optional fields are `Option`s, and
`skip_cfg_above_sigma`, which distinguishes `null` from `undefined`, is an
`Option (Option ℚ)` (`none` = undefined, `some none` = null). -/

inductive Model
  | v3 | v3Inp
  | v4 | v4Inp
  | v4Cur | v4CurInp
  | v45Cur | v45CurInp
  | v45 | v45Inp
  | furry | furryInp
deriving DecidableEq, Repr

inductive Action
  | generate
  | inpaint
  | img2img
deriving DecidableEq, Repr

inductive Sampler
  | euler | eulerAnc | dpm2sAnc | dpm2m | dpmSde | ddim
deriving DecidableEq, Repr

inductive NoiseSchedule
  | native | karras | exponential | polyexponential
deriving DecidableEq, Repr

structure PositionCoords where
  x : Option ℚ
  y : Option ℚ
deriving DecidableEq, Repr

structure CharacterPrompt where
  prompt : String
  uc : String
  center : Option PositionCoords
  enabled : Option Bool
deriving DecidableEq, Repr

structure V4CharCaption where
  char_caption : String
  centers : List (Option PositionCoords)
deriving DecidableEq, Repr

structure V4Caption where
  base_caption : String
  char_captions : List V4CharCaption
deriving DecidableEq, Repr

structure V4Prompt where
  caption : V4Caption
  use_coords : Bool
  use_order : Bool
deriving DecidableEq, Repr

structure V4NegativePrompt where
  caption : V4Caption
  legacy_uc : Bool
deriving DecidableEq, Repr

structure V4Img2Img where
  strength : ℚ
  color_correct : Bool
deriving DecidableEq, Repr

/-- `DirectorReferenceDescription` (the element type of
`director_reference_descriptions`). -/
structure DirectorDesc where
  caption : V4Caption
  legacy_uc : Bool
deriving DecidableEq, Repr

/-- The `Metadata` parameter object.  Field names follow `src/types.ts`
(the `calculateCost` revision in `src/utils/metadata-utils.ts` reads
`nSamples`/`smDyn`, the revision alongside it reads `n_samples`/`sm_dyn`;
the algorithm is identical and the embedding uses the `types.ts` names). -/
structure Metadata where
  model : Option Model
  action : Option Action
  resPreset : Option String
  ucPreset : Option ℤ
  qualityToggle : Option Bool
  n_samples : Option ℕ
  steps : Option ℕ
  scale : Option ℚ
  dynamic_thresholding : Option Bool
  seed : Option ℕ
  sampler : Option Sampler
  cfg_rescale : Option ℚ
  noise_schedule : Option NoiseSchedule
  controlnet_strength : Option ℚ
  add_original_image : Option Bool
  autoSmea : Option Bool
  params_version : Option ℕ
  prompt : Option String
  negative_prompt : Option String
  characterPrompts : Option (List CharacterPrompt)
  skip_cfg_above_sigma : Option (Option ℚ)
  legacy_uc : Option Bool
  legacy : Option Bool
  legacy_v3_extend : Option Bool
  normalize_reference_strength_multiple : Option Bool
  reference_image_multiple : Option (List String)
  reference_strength_multiple : Option (List ℚ)
  director_reference_descriptions : Option (List DirectorDesc)
  director_reference_images : Option (List String)
  director_reference_information_extracted : Option (List ℚ)
  director_reference_strength_values : Option (List ℚ)
  width : Option ℕ
  height : Option ℕ
  strength : Option ℚ
  noise : Option ℚ
  extra_noise_seed : Option ℕ
  sm : Option Bool
  sm_dyn : Option Bool
  stream : Option String
  inpaintImg2ImgStrength : Option ℚ
  img2img : Option V4Img2Img
  v4_prompt : Option V4Prompt
  v4_negative_prompt : Option V4NegativePrompt
  deliberate_euler_ancestral_bug : Option Bool
  prefer_brownian : Option Bool
  use_coords : Option Bool
deriving DecidableEq, Repr

/-- A metadata object with every field absent. -/
def emptyMetadata : Metadata where
  model := none
  action := none
  resPreset := none
  ucPreset := none
  qualityToggle := none
  n_samples := none
  steps := none
  scale := none
  dynamic_thresholding := none
  seed := none
  sampler := none
  cfg_rescale := none
  noise_schedule := none
  controlnet_strength := none
  add_original_image := none
  autoSmea := none
  params_version := none
  prompt := none
  negative_prompt := none
  characterPrompts := none
  skip_cfg_above_sigma := none
  legacy_uc := none
  legacy := none
  legacy_v3_extend := none
  normalize_reference_strength_multiple := none
  reference_image_multiple := none
  reference_strength_multiple := none
  director_reference_descriptions := none
  director_reference_images := none
  director_reference_information_extracted := none
  director_reference_strength_values := none
  width := none
  height := none
  strength := none
  noise := none
  extra_noise_seed := none
  sm := none
  sm_dyn := none
  stream := none
  inpaintImg2ImgStrength := none
  img2img := none
  v4_prompt := none
  v4_negative_prompt := none
  deliberate_euler_ancestral_bug := none
  prefer_brownian := none
  use_coords := none

/-- A rational given directly in lowest terms (kernel-reducible normal form,
used for the non-integer numeric literals of the source). -/
def mkQ (n : ℤ) (d : ℕ) (h1 : d ≠ 0 := by decide)
    (h2 : n.natAbs.Coprime d := by decide) : ℚ :=
  ⟨n, d, h1, h2⟩

/-! ## Cost estimator: `calculateCost` (src/utils/metadata-utils.ts)

JS `number` arithmetic is modelled over `ℚ`; `x || d` defaulting of numeric
fields treats `0` (and absence) as falsy. -/

/-- `value || default` for an optional natural-number field. -/
def jsOrNat (o : Option Nat) (d : Nat) : Nat :=
  match o with
  | some v => if v = 0 then d else v
  | none => d

/-- Truthiness of an optional rational (JS: nonzero number). -/
def truthyQ (o : Option ℚ) : Bool :=
  match o with
  | some v => v ≠ 0
  | none => false

/-- The model family that prices smoothing via `autoSmea`
(`model === Model.V4 || model === Model.V4_CUR || model === Model.V4_5_CUR`). -/
def costAutoSmeaFamily (m : Metadata) : Bool :=
  m.model = some Model.v4 ∨ m.model = some Model.v4Cur ∨ m.model = some Model.v45Cur

/-- The SMEA pricing factor. -/
def smeaFactor (m : Metadata) : ℚ :=
  if costAutoSmeaFamily m then
    if m.autoSmea = some true then 6/5 else 1
  else
    if m.sm_dyn = some true then 7/5
    else if m.sm = some true then 6/5
    else 1

/-- The literal constant `2951823174884865e-21`. -/
def costA : ℚ := 2951823174884865 / 10 ^ 21

/-- The literal constant `5.753298233447344e-7`. -/
def costB : ℚ := 5753298233447344 / 10 ^ 22

/-- The strength multiplier:
`metadata.action === Action.IMG2IMG && metadata.strength ? metadata.strength : 1.0`. -/
def costStrength (m : Metadata) : ℚ :=
  if m.action = some Action.img2img ∧ truthyQ m.strength then m.strength.getD 1
  else 1

/-- `Math.max(width*height, 65536)`. -/
def costResolution (m : Metadata) : Nat :=
  max (jsOrNat m.width 1024 * jsOrNat m.height 1024) 65536

/-- Square-resolution pricing parity: resolutions in `(832*1216, 1024*1024]`
are priced as `832*1216`. -/
def costAdjustedResolution (m : Metadata) : Nat :=
  if 832 * 1216 < costResolution m ∧ costResolution m ≤ 1024 * 1024 then 832 * 1216
  else costResolution m

/-- `Math.ceil(2951823174884865e-21 * res + 5.753298233447344e-7 * res * steps)`. -/
def perSampleBase (m : Metadata) : ℤ :=
  ⌈costA * (costAdjustedResolution m : ℚ) +
    costB * (costAdjustedResolution m : ℚ) * (jsOrNat m.steps 28 : ℚ)⌉

/-- `perSample = Math.max(Math.ceil(base * smeaFactor * strength), 2)`. -/
def perSample (m : Metadata) : ℤ :=
  max ⌈(perSampleBase m : ℚ) * smeaFactor m * costStrength m⌉ 2

/-- `isOpus && steps <= 28 && adjustedResolution <= 1024*1024`. -/
def opusDiscount (m : Metadata) (isOpus : Bool) : Bool :=
  isOpus ∧ jsOrNat m.steps 28 ≤ 28 ∧ costAdjustedResolution m ≤ 1024 * 1024

/-- `calculateCost` from `src/utils/metadata-utils.ts`:
`perSample * (nSamples - (opusDiscount ? 1 : 0))`. -/
def calculateCost (m : Metadata) (isOpus : Bool) : ℤ :=
  perSample m * ((jsOrNat m.n_samples 1 : ℤ) - if opusDiscount m isOpus then 1 else 0)

/-- C4's algorithm exactly as the claim words it: resolution floored at
65536 and clamped into pricing parity, `perSample` from the two literal
constants times the smoothing factor, *multiplied by strength for
image-to-image* (unconditionally), floored at 2, first sample free under
the discount tier. -/
def claimCost (m : Metadata) (hasDiscountTier : Bool) : ℤ :=
  let steps : Nat := jsOrNat m.steps 28
  let nSamples : Nat := jsOrNat m.n_samples 1
  let resolution : Nat := max (jsOrNat m.width 1024 * jsOrNat m.height 1024) 65536
  let pricingResolution : Nat :=
    if 832 * 1216 < resolution ∧ resolution ≤ 1024 * 1024 then 832 * 1216
    else resolution
  let smea : ℚ :=
    if costAutoSmeaFamily m then
      if m.autoSmea = some true then 6/5 else 1
    else
      if m.sm_dyn = some true then 7/5
      else if m.sm = some true then 6/5
      else 1
  let strengthFactor : ℚ :=
    if m.action = some Action.img2img then m.strength.getD 1 else 1
  let base : ℤ :=
    ⌈(2951823174884865 / 10 ^ 21 : ℚ) * (pricingResolution : ℚ) +
      (5753298233447344 / 10 ^ 22 : ℚ) * (pricingResolution : ℚ) * (steps : ℚ)⌉
  let perSampleCost : ℤ := max ⌈(base : ℚ) * smea * strengthFactor⌉ 2
  if hasDiscountTier ∧ steps ≤ 28 ∧ pricingResolution ≤ 1024 * 1024 then
    perSampleCost * ((nSamples : ℤ) - 1)
  else
    perSampleCost * (nSamples : ℤ)

/-- C4's algorithm amended at the single point the code forces: the strength
multiplier applies only when the action is image-to-image *and* the supplied
strength is truthy (nonzero); a zero or absent strength prices as 1.0. -/
def claimCostAmended (m : Metadata) (hasDiscountTier : Bool) : ℤ :=
  let steps : Nat := jsOrNat m.steps 28
  let nSamples : Nat := jsOrNat m.n_samples 1
  let resolution : Nat := max (jsOrNat m.width 1024 * jsOrNat m.height 1024) 65536
  let pricingResolution : Nat :=
    if 832 * 1216 < resolution ∧ resolution ≤ 1024 * 1024 then 832 * 1216
    else resolution
  let smea : ℚ :=
    if costAutoSmeaFamily m then
      if m.autoSmea = some true then 6/5 else 1
    else
      if m.sm_dyn = some true then 7/5
      else if m.sm = some true then 6/5
      else 1
  let strengthFactor : ℚ :=
    if m.action = some Action.img2img ∧ truthyQ m.strength then m.strength.getD 1
    else 1
  let base : ℤ :=
    ⌈(2951823174884865 / 10 ^ 21 : ℚ) * (pricingResolution : ℚ) +
      (5753298233447344 / 10 ^ 22 : ℚ) * (pricingResolution : ℚ) * (steps : ℚ)⌉
  let perSampleCost : ℤ := max ⌈(base : ℚ) * smea * strengthFactor⌉ 2
  if hasDiscountTier ∧ steps ≤ 28 ∧ pricingResolution ≤ 1024 * 1024 then
    perSampleCost * ((nSamples : ℤ) - 1)
  else
    perSampleCost * (nSamples : ℤ)

/-- The input that separates the claim's formula from the code: an
image-to-image request with an explicit strength of `0` (JS treats `0` as
falsy, so the code prices it as strength `1.0`). -/
def c4cex : Metadata := {emptyMetadata with
  width := some 1024
  height := some 1024
  action := some Action.img2img
  strength := some 0}

theorem costAdjustedResolution_c4cex : costAdjustedResolution c4cex = 1011712 := by
  decide

theorem perSampleBase_c4cex : perSampleBase c4cex = 20 := by
  unfold perSampleBase
  rw [costAdjustedResolution_c4cex, costA, costB,
    show jsOrNat c4cex.steps 28 = 28 from rfl]
  rw [Int.ceil_eq_iff]
  constructor <;> norm_num

theorem calculateCost_c4cex : calculateCost c4cex false = 20 := by
  unfold calculateCost perSample
  rw [perSampleBase_c4cex,
    show smeaFactor c4cex = 1 from rfl,
    show costStrength c4cex = 1 from rfl,
    show jsOrNat c4cex.n_samples 1 = 1 from rfl,
    show opusDiscount c4cex false = false from rfl]
  norm_num

theorem claimCost_c4cex : claimCost c4cex false = 2 := by
  unfold claimCost
  dsimp only
  rw [show (c4cex.strength.getD 1 : ℚ) = 0 from rfl]
  have h1 : ∀ b : ℤ, (⌈(b : ℚ) *
      (if costAutoSmeaFamily c4cex then if c4cex.autoSmea = some true then 6/5 else 1
       else if c4cex.sm_dyn = some true then 7/5
       else if c4cex.sm = some true then 6/5 else 1) *
      (if c4cex.action = some Action.img2img then (0:ℚ) else 1)⌉ : ℤ) = 0 := by
    intro b
    rw [show (if c4cex.action = some Action.img2img then (0:ℚ) else 1) = 0 from rfl]
    simp
  rw [if_neg (by simp), h1]
  rfl

/-- C4 counterexample: on an image-to-image request with strength `0`
(1024×1024, defaults otherwise), the code returns 20 but the claim's
formula — "multiplied by strength for image-to-image" — returns 2. -/
theorem C4_counterexample : calculateCost c4cex false ≠ claimCost c4cex false := by
  rw [calculateCost_c4cex, claimCost_c4cex]
  decide

/-- C4 (amended).  `calculateCost` equals the claim's algorithm with the
strength step amended to JS truthiness: the strength multiplier applies
only when the action is image-to-image and the supplied strength is
nonzero. -/
theorem C4_calculateCost_matches_amended_algorithm :
    ∀ (m : Metadata) (isOpus : Bool),
      calculateCost m isOpus = claimCostAmended m isOpus := by
  intro m isOpus
  have hpr : (if 832 * 1216 < max (jsOrNat m.width 1024 * jsOrNat m.height 1024) 65536 ∧
      max (jsOrNat m.width 1024 * jsOrNat m.height 1024) 65536 ≤ 1024 * 1024
      then 832 * 1216
      else max (jsOrNat m.width 1024 * jsOrNat m.height 1024) 65536) =
      costAdjustedResolution m := rfl
  unfold claimCostAmended
  dsimp only
  rw [hpr]
  have hsm : (if costAutoSmeaFamily m then
        if m.autoSmea = some true then (6/5 : ℚ) else 1
      else if m.sm_dyn = some true then 7/5
      else if m.sm = some true then 6/5 else 1) = smeaFactor m := rfl
  have hst : (if m.action = some Action.img2img ∧ truthyQ m.strength
      then m.strength.getD 1 else (1:ℚ)) = costStrength m := rfl
  rw [hsm, hst]
  have hbase : (⌈(2951823174884865 / 10 ^ 21 : ℚ) * (costAdjustedResolution m : ℚ) +
      (5753298233447344 / 10 ^ 22 : ℚ) * (costAdjustedResolution m : ℚ) *
        (jsOrNat m.steps 28 : ℚ)⌉ : ℤ) = perSampleBase m := rfl
  rw [hbase]
  have hp : max ⌈(perSampleBase m : ℚ) * smeaFactor m * costStrength m⌉ 2 =
      perSample m := rfl
  rw [hp]
  unfold calculateCost
  by_cases h : isOpus = true ∧ jsOrNat m.steps 28 ≤ 28 ∧
      costAdjustedResolution m ≤ 1024 * 1024
  · have hd : opusDiscount m isOpus = true := by
      simp [opusDiscount, h.1, h.2.1, h.2.2]
    rw [hd, if_pos h]
    simp
  · have hd : opusDiscount m isOpus = false := by
      simp only [opusDiscount]
      simp only [not_and_or] at h
      rcases h with h | h | h <;> simp [h]
    rw [hd, if_neg h]
    simp

/-! ### Monotonicity of the cost estimator (C5) -/

theorem costAdjustedResolution_pos (m : Metadata) : 0 < costAdjustedResolution m := by
  unfold costAdjustedResolution
  split
  · norm_num
  · calc (0:ℕ) < 65536 := by norm_num
      _ ≤ costResolution m := le_max_right _ _

theorem costA_pos : (0:ℚ) < costA := by
  unfold costA
  norm_num

theorem costB_pos : (0:ℚ) < costB := by
  unfold costB
  norm_num

theorem smeaFactor_pos (m : Metadata) : (0:ℚ) < smeaFactor m := by
  unfold smeaFactor
  split
  · split <;> norm_num
  · split
    · norm_num
    · split <;> norm_num

theorem one_le_smeaFactor (m : Metadata) : (1:ℚ) ≤ smeaFactor m := by
  unfold smeaFactor
  split
  · split <;> norm_num
  · split
    · norm_num
    · split <;> norm_num

theorem perSampleBase_pos (m : Metadata) : 0 < perSampleBase m := by
  unfold perSampleBase
  rw [Int.ceil_pos]
  have hadj : (0:ℚ) < (costAdjustedResolution m : ℚ) := by
    exact_mod_cast costAdjustedResolution_pos m
  have h1 : (0:ℚ) < costA * (costAdjustedResolution m : ℚ) :=
    mul_pos costA_pos hadj
  have h2 : (0:ℚ) ≤ costB * (costAdjustedResolution m : ℚ) * (jsOrNat m.steps 28 : ℚ) := by
    have := costB_pos
    positivity
  linarith

theorem two_le_perSample (m : Metadata) : 2 ≤ perSample m := le_max_right _ _

theorem jsOrNat_steps_eq {s : ℕ} (hs : 0 < s) : jsOrNat (some s) 28 = s := by
  unfold jsOrNat
  simp [Nat.pos_iff_ne_zero.1 hs]

theorem perSampleBase_mono_steps (m : Metadata) {s1 s2 : ℕ} (h0 : 0 < s1)
    (h : s1 ≤ s2) :
    perSampleBase {m with steps := some s1} ≤ perSampleBase {m with steps := some s2} := by
  unfold perSampleBase
  apply Int.ceil_le_ceil
  have hadj : costAdjustedResolution {m with steps := some s1} =
      costAdjustedResolution {m with steps := some s2} := rfl
  rw [hadj]
  apply add_le_add_left
  rw [show ({m with steps := some s1} : Metadata).steps = some s1 from rfl,
    show ({m with steps := some s2} : Metadata).steps = some s2 from rfl,
    jsOrNat_steps_eq h0, jsOrNat_steps_eq (lt_of_lt_of_le h0 h)]
  have hcast : (s1:ℚ) ≤ (s2:ℚ) := by exact_mod_cast h
  have hnn : (0:ℚ) ≤ costB * (costAdjustedResolution {m with steps := some s2} : ℚ) := by
    have := costB_pos
    positivity
  exact mul_le_mul_of_nonneg_left hcast hnn

theorem perSample_mono_steps (m : Metadata) {s1 s2 : ℕ} (h0 : 0 < s1) (h : s1 ≤ s2) :
    perSample {m with steps := some s1} ≤ perSample {m with steps := some s2} := by
  unfold perSample
  have hsm : smeaFactor {m with steps := some s1} =
      smeaFactor {m with steps := some s2} := rfl
  have hstq : costStrength {m with steps := some s1} =
      costStrength {m with steps := some s2} := rfl
  rw [hsm, hstq]
  set sm := smeaFactor {m with steps := some s2} with hsmdef
  set st := costStrength {m with steps := some s2} with hstdef
  have hb := perSampleBase_mono_steps m h0 h
  rcases le_or_lt 0 st with hst | hst
  · apply max_le_max _ le_rfl
    apply Int.ceil_le_ceil
    have hbq : ((perSampleBase {m with steps := some s1} : ℤ) : ℚ) ≤
        (perSampleBase {m with steps := some s2} : ℚ) := by exact_mod_cast hb
    have hsm0 : (0:ℚ) ≤ sm := le_of_lt (smeaFactor_pos _)
    apply mul_le_mul_of_nonneg_right _ hst
    exact mul_le_mul_of_nonneg_right hbq hsm0
  · have hz : ∀ s : ℕ, (⌈(perSampleBase {m with steps := some s} : ℚ) * sm * st⌉ : ℤ) ≤ 0 := by
      intro s
      have hb0 : (0:ℚ) < (perSampleBase {m with steps := some s} : ℚ) * sm := by
        have h1 : (0:ℚ) < (perSampleBase {m with steps := some s} : ℚ) := by
          exact_mod_cast perSampleBase_pos _
        exact mul_pos h1 (smeaFactor_pos _)
      have : (perSampleBase {m with steps := some s} : ℚ) * sm * st ≤ 0 :=
        le_of_lt (mul_neg_of_pos_of_neg hb0 hst)
      calc (⌈(perSampleBase {m with steps := some s} : ℚ) * sm * st⌉ : ℤ) ≤ ⌈(0:ℚ)⌉ :=
            Int.ceil_le_ceil this
        _ = 0 := by simp
    rw [max_eq_right (le_trans (hz s1) (by norm_num)),
      max_eq_right (le_trans (hz s2) (by norm_num))]

theorem jsOrNat_one_pos (o : Option ℕ) : 0 < jsOrNat o 1 := by
  rcases o with _ | v
  · decide
  · simp only [jsOrNat]
    split <;> omega

theorem jsOrNat_mono_one {n1 n2 : ℕ} (h : n1 ≤ n2) :
    jsOrNat (some n1) 1 ≤ jsOrNat (some n2) 1 := by
  simp only [jsOrNat]
  split <;> split <;> omega

/-- C5.  For fixed other parameters, `calculateCost` is non-decreasing in
`steps` (for positive step counts; a zero `steps` field is JS-falsy and is
replaced by the default 28) and non-decreasing in `n_samples` — including
across the `steps = 28` discount boundary. -/
theorem C5_calculateCost_monotone :
    ∀ (m : Metadata) (isOpus : Bool),
      (∀ s1 s2 : ℕ, 0 < s1 → s1 ≤ s2 →
        calculateCost {m with steps := some s1} isOpus ≤
          calculateCost {m with steps := some s2} isOpus) ∧
      (∀ n1 n2 : ℕ, n1 ≤ n2 →
        calculateCost {m with n_samples := some n1} isOpus ≤
          calculateCost {m with n_samples := some n2} isOpus) := by
  intro m isOpus
  constructor
  · intro s1 s2 h0 h
    unfold calculateCost
    have hn : jsOrNat ({m with steps := some s1} : Metadata).n_samples 1 =
        jsOrNat ({m with steps := some s2} : Metadata).n_samples 1 := rfl
    rw [hn]
    set n : ℤ := (jsOrNat ({m with steps := some s2} : Metadata).n_samples 1 : ℤ)
      with hndef
    have hn1 : 1 ≤ n := by
      have := jsOrNat_one_pos ({m with steps := some s2} : Metadata).n_samples
      omega
    have hp := perSample_mono_steps m h0 h
    have hp1 : (0:ℤ) ≤ perSample {m with steps := some s1} := by
      have := two_le_perSample {m with steps := some s1}
      omega
    have hp2 : (0:ℤ) ≤ perSample {m with steps := some s2} := by
      have := two_le_perSample {m with steps := some s2}
      omega
    by_cases hd2 : opusDiscount {m with steps := some s2} isOpus
    · have hd1 : opusDiscount {m with steps := some s1} isOpus = true := by
        simp only [opusDiscount, decide_eq_true_eq] at hd2 ⊢
        obtain ⟨ho, hs, ha⟩ := hd2
        refine ⟨ho, ?_, ha⟩
        rw [jsOrNat_steps_eq (lt_of_lt_of_le h0 h)] at hs
        rw [jsOrNat_steps_eq h0]
        omega
      rw [hd1, if_pos rfl, hd2, if_pos rfl]
      apply mul_le_mul_of_nonneg_right hp
      omega
    · rw [if_neg hd2]
      have hle1 : perSample {m with steps := some s1} *
          (n - if opusDiscount {m with steps := some s1} isOpus then 1 else 0) ≤
          perSample {m with steps := some s1} * n := by
        apply mul_le_mul_of_nonneg_left _ hp1
        split <;> omega
      calc perSample {m with steps := some s1} *
            (n - if opusDiscount {m with steps := some s1} isOpus then 1 else 0) ≤
            perSample {m with steps := some s1} * n := hle1
        _ ≤ perSample {m with steps := some s2} * n :=
            mul_le_mul_of_nonneg_right hp (by omega)
  · intro n1 n2 h
    unfold calculateCost
    have hp : perSample {m with n_samples := some n1} =
        perSample {m with n_samples := some n2} := rfl
    have hd : opusDiscount {m with n_samples := some n1} isOpus =
        opusDiscount {m with n_samples := some n2} isOpus := rfl
    rw [hp, hd]
    have hp2 : (0:ℤ) ≤ perSample {m with n_samples := some n2} := by
      have := two_le_perSample {m with n_samples := some n2}
      omega
    apply mul_le_mul_of_nonneg_left _ hp2
    have := jsOrNat_mono_one h
    rw [show ({m with n_samples := some n1} : Metadata).n_samples = some n1 from rfl,
      show ({m with n_samples := some n2} : Metadata).n_samples = some n2 from rfl]
    split <;> omega

/-- C5 witness: a concrete application across the discount boundary
(steps 28 vs 29) and in sample count. -/
theorem C5_witness :
    (0 < 28 ∧ 28 ≤ 29 ∧
      calculateCost {emptyMetadata with steps := some 28} true ≤
        calculateCost {emptyMetadata with steps := some 29} true) ∧
    ((2:ℕ) ≤ 5 ∧
      calculateCost {emptyMetadata with n_samples := some 2} true ≤
        calculateCost {emptyMetadata with n_samples := some 5} true) :=
  ⟨⟨by decide, by decide,
    (C5_calculateCost_monotone emptyMetadata true).1 28 29 (by decide) (by decide)⟩,
   ⟨by decide,
    (C5_calculateCost_monotone emptyMetadata true).2 2 5 (by decide)⟩⟩

/-! ## Metadata normalization pipeline (`MetadataProcessor`, src/client.ts)

`processMetadata` deep-copies the request (identity in this model), applies
defaults, resolves the resolution (the only throwing step), applies preset
negative-prompt boilerplate and quality tags, deduplicates, then runs the
action-, character-, model- and sampler-specific handlers in source order.
The two `Math.random()` draws (seed, extra-noise seed) are oracle
parameters `sd`/`ed`. -/

/-- `value || default` for an optional rational field (`0` is falsy). -/
def jsOrQ (o : Option ℚ) (d : ℚ) : ℚ :=
  match o with
  | some v => if v = 0 then d else v
  | none => d

/-- 0.5, the default character-prompt center coordinate. -/
def qHalf : ℚ := mkQ 1 2

/-- 0.3, the img2img/inpaint default strength. -/
def qStrengthDefault : ℚ := mkQ 3 10

/-- The `v4Models` list of `client.ts` (V4/V4.5 family). -/
def v4ModelsList : List Model :=
  [Model.v4, Model.v4Inp, Model.v4Cur, Model.v4CurInp,
   Model.v45Cur, Model.v45CurInp, Model.v45, Model.v45Inp]

/-- Modelled from the spec: `isV4Model` is imported from `src/constants.ts`
but its body is not among the staged sources; per the spec's model families
and the `v4Models` lists of `client.ts`, it holds exactly for the V4/V4.5
family. -/
def isV4Model (m : Model) : Bool :=
  decide (m ∈ v4ModelsList)

/-- Membership of an optional model in the `v4Models` list
(`metadata.model && v4Models.includes(metadata.model)`). -/
def inV4Models (o : Option Model) : Bool :=
  match o with
  | some md => decide (md ∈ v4ModelsList)
  | none => false

/-- Default element pushed into `director_reference_descriptions`. -/
def defaultDirectorDesc : DirectorDesc :=
  ⟨⟨"character", []⟩, false⟩

/-- Pad with `d` up to length `n` (the `while … push` loops), then truncate
to `n` (the `slice(0, imageCount)` calls). -/
def padTrim {α : Type} (l : List α) (n : Nat) (d : α) : List α :=
  (l ++ List.replicate (n - l.length) d).take n

/-- `applyDirectorReferenceDefaults`: strip all four director-reference
fields when no reference images are supplied, else reconcile the three
companion arrays to exactly the image-array length. -/
def applyDirectorReferenceDefaults (m : Metadata) : Metadata :=
  match m.director_reference_images with
  | none =>
    {m with
      director_reference_descriptions := none
      director_reference_images := none
      director_reference_information_extracted := none
      director_reference_strength_values := none}
  | some imgs =>
    if imgs.isEmpty then
      {m with
        director_reference_descriptions := none
        director_reference_images := none
        director_reference_information_extracted := none
        director_reference_strength_values := none}
    else
      {m with
        director_reference_descriptions :=
          some (padTrim (m.director_reference_descriptions.getD []) imgs.length
            defaultDirectorDesc)
        director_reference_information_extracted :=
          some (padTrim (m.director_reference_information_extracted.getD [])
            imgs.length 1)
        director_reference_strength_values :=
          some (padTrim (m.director_reference_strength_values.getD []) imgs.length 1)}

/-- `applyDefaultValues`: the `??` defaults, director-reference
reconciliation, and `metadata.stream = undefined`.
(`reference_image_multiple ?? undefined` and
`reference_strength_multiple ?? undefined` are no-ops and omitted.) -/
def applyDefaultValues (sd : Nat) (m0 : Metadata) : Metadata :=
  let m := {m0 with
    model := some (m0.model.getD Model.v45)
    action := some (m0.action.getD Action.generate)
    resPreset := some (m0.resPreset.getD ("normal_portrait"))
    ucPreset := some (m0.ucPreset.getD 0)
    qualityToggle := some (m0.qualityToggle.getD true)
    n_samples := some (m0.n_samples.getD 1)
    steps := some (m0.steps.getD 28)
    scale := some (m0.scale.getD 6)
    dynamic_thresholding := some (m0.dynamic_thresholding.getD false)
    seed := some (m0.seed.getD sd)
    sampler := some (m0.sampler.getD Sampler.eulerAnc)
    cfg_rescale := some (m0.cfg_rescale.getD 0)
    noise_schedule := some (m0.noise_schedule.getD NoiseSchedule.karras)
    controlnet_strength := some (m0.controlnet_strength.getD 1)
    add_original_image := some (m0.add_original_image.getD true)
    autoSmea := some (m0.autoSmea.getD false)
    params_version := some (m0.params_version.getD 3)
    prompt := some (m0.prompt.getD ("1girl, cute"))
    negative_prompt := some (m0.negative_prompt.getD (""))
    characterPrompts := some (m0.characterPrompts.getD [])
    skip_cfg_above_sigma := some (m0.skip_cfg_above_sigma.getD none)
    legacy_uc := some (m0.legacy_uc.getD false)
    legacy := some (m0.legacy.getD false)
    legacy_v3_extend := some (m0.legacy_v3_extend.getD false)
    normalize_reference_strength_multiple :=
      some (m0.normalize_reference_strength_multiple.getD true)}
  let m := applyDirectorReferenceDefaults m
  {m with stream := none}

/-- `getResolutionDimensions`: preset table with `normal_portrait` fallback. -/
def getResolutionDimensions (preset : String) : Nat × Nat :=
  if preset = "small_portrait" then (512, 768)
  else if preset = "small_landscape" then (768, 512)
  else if preset = "small_square" then (640, 640)
  else if preset = "normal_portrait" then (832, 1216)
  else if preset = "normal_landscape" then (1216, 832)
  else if preset = "normal_square" then (1024, 1024)
  else if preset = "large_portrait" then (1024, 1536)
  else if preset = "large_landscape" then (1536, 1024)
  else if preset = "large_square" then (1472, 1472)
  else if preset = "wallpaper_portrait" then (1088, 1920)
  else if preset = "wallpaper_landscape" then (1920, 1088)
  else (832, 1216)

/-- `Math.floor((v + 63) / 64) * 64`: round up to the next multiple of 64. -/
def roundTo64 (v : Nat) : Nat :=
  ((v + 63) / 64) * 64

/-- The resolved width/height before validation: preset lookup (with
`832×1216` fallback when the preset is falsy) when width or height is
absent, else both rounded up to multiples of 64. -/
def resolveDims (m : Metadata) : Nat × Nat :=
  if m.width.isNone ∨ m.height.isNone then
    match m.resPreset with
    | some preset => if preset = "" then (832, 1216) else getResolutionDimensions preset
    | none => (832, 1216)
  else
    (roundTo64 (m.width.getD 0), roundTo64 (m.height.getD 0))

/-- `handleResolution`: set the resolved dimensions, then throw unless
`width*height` lies in `[64*64, 3047424]`. -/
def handleResolution (m : Metadata) : Except String Metadata :=
  let d := resolveDims m
  if d.1 * d.2 < 64 * 64 ∨ 3047424 < d.1 * d.2 then
    .error ("ValidationError: total resolution out of range")
  else
    .ok {m with width := some d.1, height := some d.2}

/-- The `handleUcPreset` model-family × preset boilerplate table
(literal strings from `client.ts`; `\x7b`/`\x7d` are `{`/`}`). -/
def ucPresetText (model : Option Model) (ucPreset : Option Int) : String :=
  if model = some Model.v45 ∨ model = some Model.v45Inp then
    if ucPreset = some 0 then
      ", nsfw, lowres, artistic error, film grain, scan artifacts, worst quality, bad quality, jpeg artifacts, very displeasing, chromatic aberration, dithering, halftone, screentone, multiple views, logo, too many watermarks, negative space, blank page"
    else if ucPreset = some 1 then
      ", nsfw, lowres, artistic error, scan artifacts, worst quality, bad quality, jpeg artifacts, multiple views, very displeasing, too many watermarks, negative space, blank page"
    else if ucPreset = some 2 then
      ", nsfw, \x7bworst quality\x7d, distracting watermark, unfinished, bad quality, \x7bwidescreen\x7d, upscale, \x7bsequence\x7d, \x7b\x7bgrandfathered content\x7d\x7d, blurred foreground, chromatic aberration, sketch, everyone, [sketch background], simple, [flat colors], ych (character), outline, multiple scenes, [[horror (theme)]], comic"
    else if ucPreset = some 3 then
      ", nsfw, lowres, artistic error, film grain, scan artifacts, worst quality, bad quality, jpeg artifacts, very displeasing, chromatic aberration, dithering, halftone, screentone, multiple views, logo, too many watermarks, negative space, blank page, @_@, mismatched pupils, glowing eyes, bad anatomy"
    else ""
  else if model = some Model.v45Cur ∨ model = some Model.v45CurInp then
    if ucPreset = some 0 then
      ", blurry, lowres, upscaled, artistic error, film grain, scan artifacts, worst quality, bad quality, jpeg artifacts, very displeasing, chromatic aberration, halftone, multiple views, logo, too many watermarks, negative space, blank page"
    else if ucPreset = some 1 then
      ", blurry, lowres, upscaled, artistic error, scan artifacts, jpeg artifacts, logo, too many watermarks, negative space, blank page"
    else if ucPreset = some 2 then
      ", blurry, lowres, upscaled, artistic error, film grain, scan artifacts, bad anatomy, bad hands, worst quality, bad quality, jpeg artifacts, very displeasing, chromatic aberration, halftone, multiple views, logo, too many watermarks, @_@, mismatched pupils, glowing eyes, negative space, blank page"
    else ""
  else if model = some Model.v4 ∨ model = some Model.v4Inp then
    if ucPreset = some 0 then
      ", blurry, lowres, error, film grain, scan artifacts, worst quality, bad quality, jpeg artifacts, very displeasing, chromatic aberration, multiple views, logo, too many watermarks"
    else if ucPreset = some 1 then
      ", blurry, lowres, error, worst quality, bad quality, jpeg artifacts, very displeasing"
    else ""
  else if model = some Model.v4Cur ∨ model = some Model.v4CurInp then
    if ucPreset = some 0 then
      ", blurry, lowres, error, film grain, scan artifacts, worst quality, bad quality, jpeg artifacts, very displeasing, chromatic aberration, logo, dated, signature, multiple views, gigantic breasts"
    else if ucPreset = some 1 then
      ", blurry, lowres, error, worst quality, bad quality, jpeg artifacts, very displeasing, logo, dated, signature"
    else ""
  else if model = some Model.v3 ∨ model = some Model.v3Inp then
    if ucPreset = some 0 then
      ", lowres, \x7bbad\x7d, error, fewer, extra, missing, worst quality, jpeg artifacts, bad quality, watermark, unfinished, displeasing, chromatic aberration, signature, extra digits, artistic error, username, scan, [abstract],"
    else if ucPreset = some 1 then
      ", lowres, jpeg artifacts, worst quality, watermark, blurry, very displeasing,"
    else if ucPreset = some 2 then
      ", lowres, \x7bbad\x7d, error, fewer, extra, missing, worst quality, jpeg artifacts, bad quality, watermark, unfinished, displeasing, chromatic aberration, signature, extra digits, artistic error, username, scan, [abstract], bad anatomy, bad hands, @_@, mismatched pupils, heart-shaped pupils, glowing eyes,"
    else ""
  else if model = some Model.furry ∨ model = some Model.furryInp then
    if ucPreset = some 0 then
      ", \x7b\x7bworst quality\x7d\x7d, [displeasing], \x7bunusual pupils\x7d, guide lines, \x7b\x7bunfinished\x7d\x7d, \x7bbad\x7d, url, artist name, \x7b\x7btall image\x7d\x7d, mosaic, \x7bsketch page\x7d, comic panel, impact (font), [dated], \x7blogo\x7d, ych, \x7bwhat\x7d, \x7bwhere is your god now\x7d, \x7bdistorted text\x7d, repeated text, \x7bfloating head\x7d, \x7b1994\x7d, \x7bwidescreen\x7d, absolutely everyone, sequence, \x7bcompression artifacts\x7d, hard translated, \x7bcropped\x7d, \x7bcommissioner name\x7d, unknown text, high contrast,"
    else if ucPreset = some 1 then
      ", \x7bworst quality\x7d, guide lines, unfinished, bad, url, tall image, widescreen, compression artifacts, unknown text,"
    else ""
  else ""

/-- `handleUcPreset`: unconditionally prepend `uc + ", "` to the negative
prompt. -/
def handleUcPreset (m : Metadata) : Metadata :=
  let np := ucPresetText m.model m.ucPreset ++ ", " ++ m.negative_prompt.getD ("")
  {m with negative_prompt := some np}

/-- The `handleQualityTags` model-family suffix table. -/
def qualityTagsText (model : Option Model) : String :=
  if model = some Model.v45 ∨ model = some Model.v45Inp then
    ", very aesthetic, masterpiece, no text"
  else if model = some Model.v45Cur ∨ model = some Model.v45CurInp then
    ", location, masterpiece, no text, -0.8::feet::, rating:general"
  else if model = some Model.v4 ∨ model = some Model.v4Inp then
    ", no text, best quality, very aesthetic, absurdres"
  else if model = some Model.v4Cur ∨ model = some Model.v4CurInp then
    ", rating:general, amazing quality, very aesthetic, absurdres"
  else if model = some Model.v3 ∨ model = some Model.v3Inp then
    ", best quality, amazing quality, very aesthetic, absurdres"
  else if model = some Model.furry ∨ model = some Model.furryInp then
    ", \x7bbest quality\x7d, \x7bamazing quality\x7d"
  else ""

/-- `handleQualityTags`: when the quality toggle is on, append the
model-family tag suffix to the prompt. -/
def handleQualityTags (m : Metadata) : Metadata :=
  if m.qualityToggle = some true then
    {m with prompt := some (m.prompt.getD ("") ++ qualityTagsText m.model)}
  else m

/-- The two dedup lines of `processMetadata`
(`result.prompt ? deduplicateTags(result.prompt) : ""`). -/
def dedupePrompts (m : Metadata) : Metadata :=
  {m with
    prompt := some (match m.prompt with
      | some p => if p = "" then "" else deduplicateTags p
      | none => "")
    negative_prompt := some (match m.negative_prompt with
      | some p => if p = "" then "" else deduplicateTags p
      | none => "")}

/-- `metadata.action === Action.IMG2IMG || metadata.action === Action.INPAINT`. -/
def actionCond (m : Metadata) : Bool :=
  m.action = some Action.img2img ∨ m.action = some Action.inpaint

/-- `handleActionSpecificParameters` (img2img and inpaint): force off the
legacy smoothing flags, default strength/noise, draw an extra-noise seed. -/
def handleActionSpecificParameters (ed : Nat) (m : Metadata) : Metadata :=
  if actionCond m then
    {m with
      sm := some false
      sm_dyn := some false
      strength := some (jsOrQ m.strength qStrengthDefault)
      noise := some (jsOrQ m.noise 0)
      extra_noise_seed := some (jsOrNat m.extra_noise_seed ed)}
  else m

/-- `cp.center?.x !== 0.5 || cp.center?.y !== 0.5` (an absent center or an
absent coordinate compares as deviating). -/
def cpDeviates (cp : CharacterPrompt) : Bool :=
  match cp.center with
  | none => true
  | some c => c.x ≠ some qHalf ∨ c.y ≠ some qHalf

/-- `handleUseCoords`: `use_coords` is false for an empty character-prompt
list, else true iff some character prompt (enabled or not, centers not yet
defaulted) deviates from (0.5, 0.5). -/
def handleUseCoords (m : Metadata) : Metadata :=
  match m.characterPrompts with
  | none => {m with use_coords := some false}
  | some cps =>
    if cps.isEmpty then {m with use_coords := some false}
    else {m with use_coords := some (cps.any cpDeviates)}

/-- Per-character-prompt defaulting of `handleCharacterPrompts`. -/
def normalizeCp (cp : CharacterPrompt) : CharacterPrompt :=
  let c0 := cp.center.getD ⟨some qHalf, some qHalf⟩
  { prompt := if cp.prompt = "" then "1girl, cute" else deduplicateTags cp.prompt
    uc := if cp.uc = "" then "lowres, aliasing," else deduplicateTags cp.uc
    center := some ⟨some (c0.x.getD qHalf), some (c0.y.getD qHalf)⟩
    enabled := some (cp.enabled.getD true) }

/-- `handleCharacterPrompts`: default every character prompt in place
(no-op for an absent or empty list). -/
def handleCharacterPrompts (m : Metadata) : Metadata :=
  match m.characterPrompts with
  | none => m
  | some cps =>
    if cps.isEmpty then m
    else {m with characterPrompts := some (cps.map normalizeCp)}

/-- `handleStream`: V4-family generate requests stream msgpack. -/
def streamCond (m : Metadata) : Bool :=
  m.model.any isV4Model ∧ m.action = some Action.generate

def handleStream (m : Metadata) : Metadata :=
  if streamCond m then
    {m with stream := some ("msgpack")}
  else m

/-- `handleV4Prompt`: build the V4 prompt structure from the base prompt and
the enabled character prompts; skipped when already supplied or for
non-V4-family models.  `use_order` is hardcoded `true`. -/
def handleV4Prompt (m : Metadata) : Metadata :=
  if m.v4_prompt.isSome then m
  else if ¬ inV4Models m.model then m
  else
    let charCaptions : List V4CharCaption :=
      (m.characterPrompts.getD []).filterMap fun cp =>
        if cp.enabled = some true then some ⟨cp.prompt, [cp.center]⟩ else none
    let vp : V4Prompt := ⟨⟨m.prompt.getD (""), charCaptions⟩, m.use_coords.getD false, true⟩
    {m with v4_prompt := some vp}

/-- `handleV4NegativePrompt`: as `handleV4Prompt`, from the negative prompt
and the enabled character prompts with a non-empty `uc`. -/
def handleV4NegativePrompt (m : Metadata) : Metadata :=
  if m.v4_negative_prompt.isSome then m
  else if ¬ inV4Models m.model then m
  else
    let charCaptions : List V4CharCaption :=
      (m.characterPrompts.getD []).filterMap fun cp =>
        if cp.enabled = some true ∧ cp.uc ≠ "" then some ⟨cp.uc, [cp.center]⟩ else none
    let vnp : V4NegativePrompt := ⟨⟨m.negative_prompt.getD (""), charCaptions⟩, m.legacy_uc.getD false⟩
    {m with v4_negative_prompt := some vnp}

/-- `handleModelSpecificSettings`: V4-family models drop `sm`/`sm_dyn`. -/
def handleModelSpecificSettings (m : Metadata) : Metadata :=
  if inV4Models m.model then {m with sm := none, sm_dyn := none} else m

/-- `handleSamplerSpecificSettings`: the ancestral-Euler sampler forces the
bug-compatibility flag off and `prefer_brownian` on. -/
def handleSamplerSpecificSettings (m : Metadata) : Metadata :=
  if m.sampler = some Sampler.eulerAnc then
    {m with
      deliberate_euler_ancestral_bug := some false
      prefer_brownian := some true}
  else m

/-- `handleInpaintImg2ImgStrength` (V4.5 full family only): resolve the
inpaint/img2img strength via `?? strength ?? 1`; attach the nested
`img2img` object when it is `< 1`, else delete it. -/
def v45Cond (m : Metadata) : Bool :=
  m.model = some Model.v45 ∨ m.model = some Model.v45Inp

def handleInpaintImg2ImgStrength (m : Metadata) : Metadata :=
  if v45Cond m then
    let v := m.inpaintImg2ImgStrength.getD (m.strength.getD 1)
    let m1 := {m with inpaintImg2ImgStrength := some v}
    if v < 1 then {m1 with img2img := some ⟨v, true⟩}
    else {m1 with img2img := none}
  else m

/-- The handler chain of `processMetadata` after the resolution step, in
source order. -/
def postResolution (ed : Nat) (r1 : Metadata) : Metadata :=
  handleInpaintImg2ImgStrength
    (handleSamplerSpecificSettings
      (handleModelSpecificSettings
        (handleV4NegativePrompt
          (handleV4Prompt
            (handleStream
              (handleCharacterPrompts
                (handleUseCoords
                  (handleActionSpecificParameters ed
                    (dedupePrompts
                      (handleQualityTags
                        (handleUcPreset r1)))))))))))

/-- `processMetadata`: the full normalization pipeline in source order.
`sd` and `ed` are the two `Math.random()` oracle draws; the initial
`JSON.parse(JSON.stringify(…))` deep copy is the identity here. -/
def processMetadata (sd ed : Nat) (metadata : Metadata) : Except String Metadata :=
  match handleResolution (applyDefaultValues sd metadata) with
  | .error e => .error e
  | .ok r1 => .ok (postResolution ed r1)

/-! ### Record-update characterizations of the handlers

Each handler equals a single record update of its input; these equations
(together with structure eta) let the pipeline be evaluated field by field. -/

/-- `result.prompt ? deduplicateTags(result.prompt) : ""` on the field value. -/
def dedupeStep (s : String) : String :=
  if s = "" then "" else deduplicateTags s

/-- The dedup step applied to an optional field (absence is falsy). -/
def dedupeOpt (o : Option String) : String :=
  match o with
  | some p => dedupeStep p
  | none => ""

/-- The prompt after `handleQualityTags`. -/
def qualityResult (m : Metadata) : Option String :=
  if m.qualityToggle = some true then some (m.prompt.getD ("") ++ qualityTagsText m.model)
  else m.prompt

/-- The negative prompt string written by `handleUcPreset`. -/
def ucPrependResult (m : Metadata) : String :=
  ucPresetText m.model m.ucPreset ++ ", " ++ m.negative_prompt.getD ("")

/-- The `use_coords` value computed by `handleUseCoords`. -/
def useCoordsResult (m : Metadata) : Bool :=
  match m.characterPrompts with
  | none => false
  | some cps => if cps.isEmpty then false else cps.any cpDeviates

/-- The character-prompt list after `handleCharacterPrompts`. -/
def cpsResult (m : Metadata) : Option (List CharacterPrompt) :=
  match m.characterPrompts with
  | none => none
  | some cps => if cps.isEmpty then some cps else some (cps.map normalizeCp)

/-- The `v4_prompt` value after `handleV4Prompt`. -/
def v4PromptResult (m : Metadata) : Option V4Prompt :=
  if m.v4_prompt.isSome then m.v4_prompt
  else if ¬ inV4Models m.model then m.v4_prompt
  else
    some ⟨⟨m.prompt.getD (""),
      (m.characterPrompts.getD []).filterMap fun cp =>
        if cp.enabled = some true then some ⟨cp.prompt, [cp.center]⟩ else none⟩,
      m.use_coords.getD false, true⟩

/-- The `v4_negative_prompt` value after `handleV4NegativePrompt`. -/
def v4NegativePromptResult (m : Metadata) : Option V4NegativePrompt :=
  if m.v4_negative_prompt.isSome then m.v4_negative_prompt
  else if ¬ inV4Models m.model then m.v4_negative_prompt
  else
    some ⟨⟨m.negative_prompt.getD (""),
      (m.characterPrompts.getD []).filterMap fun cp =>
        if cp.enabled = some true ∧ cp.uc ≠ "" then some ⟨cp.uc, [cp.center]⟩ else none⟩,
      m.legacy_uc.getD false⟩

theorem handleUcPreset_eq (m : Metadata) :
    handleUcPreset m = {m with negative_prompt := some (ucPrependResult m)} := rfl

theorem handleQualityTags_eq (m : Metadata) :
    handleQualityTags m = {m with prompt := qualityResult m} := by
  unfold handleQualityTags qualityResult
  split_ifs <;> rfl

theorem dedupePrompts_eq (m : Metadata) :
    dedupePrompts m = {m with
      prompt := some (dedupeOpt m.prompt)
      negative_prompt := some (dedupeOpt m.negative_prompt)} := rfl

theorem handleActionSpecificParameters_eq (ed : Nat) (m : Metadata) :
    handleActionSpecificParameters ed m = {m with
      sm := if actionCond m then some false else m.sm
      sm_dyn := if actionCond m then some false else m.sm_dyn
      strength := if actionCond m then some (jsOrQ m.strength qStrengthDefault) else m.strength
      noise := if actionCond m then some (jsOrQ m.noise 0) else m.noise
      extra_noise_seed := if actionCond m then some (jsOrNat m.extra_noise_seed ed)
        else m.extra_noise_seed} := by
  unfold handleActionSpecificParameters
  split_ifs <;> rfl

theorem handleUseCoords_eq (m : Metadata) :
    handleUseCoords m = {m with use_coords := some (useCoordsResult m)} := by
  unfold handleUseCoords useCoordsResult
  rcases hcp : m.characterPrompts with _ | cps
  · rfl
  · dsimp only
    split_ifs <;> rfl

theorem handleCharacterPrompts_eq (m : Metadata) :
    handleCharacterPrompts m = {m with characterPrompts := cpsResult m} := by
  unfold handleCharacterPrompts cpsResult
  rcases hcp : m.characterPrompts with _ | cps
  · dsimp only
    rw [← hcp]
  · dsimp only
    split_ifs
    · rw [← hcp]
    · rfl

theorem handleStream_eq (m : Metadata) :
    handleStream m = {m with stream := if streamCond m then some ("msgpack") else m.stream} := by
  unfold handleStream
  split_ifs <;> rfl

theorem handleV4Prompt_eq (m : Metadata) :
    handleV4Prompt m = {m with v4_prompt := v4PromptResult m} := by
  unfold handleV4Prompt v4PromptResult
  split_ifs <;> rfl

theorem handleV4NegativePrompt_eq (m : Metadata) :
    handleV4NegativePrompt m = {m with v4_negative_prompt := v4NegativePromptResult m} := by
  unfold handleV4NegativePrompt v4NegativePromptResult
  split_ifs <;> rfl

theorem handleModelSpecificSettings_eq (m : Metadata) :
    handleModelSpecificSettings m = {m with
      sm := if inV4Models m.model then none else m.sm
      sm_dyn := if inV4Models m.model then none else m.sm_dyn} := by
  unfold handleModelSpecificSettings
  split_ifs <;> rfl

theorem handleSamplerSpecificSettings_eq (m : Metadata) :
    handleSamplerSpecificSettings m = {m with
      deliberate_euler_ancestral_bug :=
        if m.sampler = some Sampler.eulerAnc then some false
        else m.deliberate_euler_ancestral_bug
      prefer_brownian :=
        if m.sampler = some Sampler.eulerAnc then some true else m.prefer_brownian} := by
  unfold handleSamplerSpecificSettings
  split_ifs <;> rfl

theorem handleInpaintImg2ImgStrength_eq (m : Metadata) :
    handleInpaintImg2ImgStrength m = {m with
      inpaintImg2ImgStrength :=
        if v45Cond m then some (m.inpaintImg2ImgStrength.getD (m.strength.getD 1))
        else m.inpaintImg2ImgStrength
      img2img :=
        if v45Cond m then
          if m.inpaintImg2ImgStrength.getD (m.strength.getD 1) < 1 then
            some ⟨m.inpaintImg2ImgStrength.getD (m.strength.getD 1), true⟩
          else none
        else m.img2img} := by
  unfold handleInpaintImg2ImgStrength
  dsimp only
  split_ifs <;> rfl


/-- The final `v4_prompt` of the chain, as a function of the post-resolution
state (`handleV4Prompt` runs after the prompt, `use_coords` and
character-prompt handlers). -/
def finalV4Prompt (r : Metadata) : Option V4Prompt :=
  if r.v4_prompt.isSome then r.v4_prompt
  else if ¬ inV4Models r.model then r.v4_prompt
  else
    some ⟨⟨dedupeOpt (qualityResult r),
      ((cpsResult r).getD []).filterMap fun cp =>
        if cp.enabled = some true then some ⟨cp.prompt, [cp.center]⟩ else none⟩,
      useCoordsResult r, true⟩

/-- The final `v4_negative_prompt` of the chain. -/
def finalV4Negative (r : Metadata) : Option V4NegativePrompt :=
  if r.v4_negative_prompt.isSome then r.v4_negative_prompt
  else if ¬ inV4Models r.model then r.v4_negative_prompt
  else
    some ⟨⟨dedupeStep (ucPrependResult r),
      ((cpsResult r).getD []).filterMap fun cp =>
        if cp.enabled = some true ∧ cp.uc ≠ "" then some ⟨cp.uc, [cp.center]⟩ else none⟩,
      r.legacy_uc.getD false⟩

/-- The final `strength` of the chain. -/
def finalStrength (r : Metadata) : Option ℚ :=
  if actionCond r then some (jsOrQ r.strength qStrengthDefault) else r.strength

/-- The resolved inpaint/img2img strength (`?? strength ?? 1`). -/
def finalInpaintVal (r : Metadata) : ℚ :=
  r.inpaintImg2ImgStrength.getD ((finalStrength r).getD 1)

set_option maxHeartbeats 1000000 in
/-- The handler chain as one record update of the post-resolution state. -/
theorem postResolution_eq (ed : Nat) (r : Metadata) :
    postResolution ed r = {r with
      prompt := some (dedupeOpt (qualityResult r))
      negative_prompt := some (dedupeStep (ucPrependResult r))
      sm := if inV4Models r.model then none
        else if actionCond r then some false else r.sm
      sm_dyn := if inV4Models r.model then none
        else if actionCond r then some false else r.sm_dyn
      strength := finalStrength r
      noise := if actionCond r then some (jsOrQ r.noise 0) else r.noise
      extra_noise_seed := if actionCond r then some (jsOrNat r.extra_noise_seed ed)
        else r.extra_noise_seed
      use_coords := some (useCoordsResult r)
      characterPrompts := cpsResult r
      stream := if streamCond r then some ("msgpack") else r.stream
      v4_prompt := finalV4Prompt r
      v4_negative_prompt := finalV4Negative r
      deliberate_euler_ancestral_bug := if r.sampler = some Sampler.eulerAnc then some false
        else r.deliberate_euler_ancestral_bug
      prefer_brownian := if r.sampler = some Sampler.eulerAnc then some true
        else r.prefer_brownian
      inpaintImg2ImgStrength := if v45Cond r then some (finalInpaintVal r)
        else r.inpaintImg2ImgStrength
      img2img := if v45Cond r then
          if finalInpaintVal r < 1 then some ⟨finalInpaintVal r, true⟩ else none
        else r.img2img} := by
  unfold postResolution
  rw [handleUcPreset_eq, handleQualityTags_eq, dedupePrompts_eq,
    handleActionSpecificParameters_eq, handleUseCoords_eq, handleCharacterPrompts_eq,
    handleStream_eq, handleV4Prompt_eq, handleV4NegativePrompt_eq,
    handleModelSpecificSettings_eq, handleSamplerSpecificSettings_eq,
    handleInpaintImg2ImgStrength_eq]
  simp only [finalV4Prompt, finalV4Negative, finalStrength, finalInpaintVal,
    qualityResult, ucPrependResult, useCoordsResult, cpsResult, v4PromptResult,
    v4NegativePromptResult, dedupeOpt, actionCond, streamCond, v45Cond, inV4Models,
    Option.getD, Option.isSome]

/-- The reconciled `director_reference_images`. -/
def dirImagesResult (m : Metadata) : Option (List String) :=
  match m.director_reference_images with
  | none => none
  | some imgs => if imgs.isEmpty then none else some imgs

/-- The reconciled `director_reference_descriptions`. -/
def dirDescsResult (m : Metadata) : Option (List DirectorDesc) :=
  match m.director_reference_images with
  | none => none
  | some imgs =>
    if imgs.isEmpty then none
    else some (padTrim (m.director_reference_descriptions.getD []) imgs.length
      defaultDirectorDesc)

/-- The reconciled `director_reference_information_extracted`. -/
def dirExtractedResult (m : Metadata) : Option (List ℚ) :=
  match m.director_reference_images with
  | none => none
  | some imgs =>
    if imgs.isEmpty then none
    else some (padTrim (m.director_reference_information_extracted.getD []) imgs.length 1)

/-- The reconciled `director_reference_strength_values`. -/
def dirStrengthsResult (m : Metadata) : Option (List ℚ) :=
  match m.director_reference_images with
  | none => none
  | some imgs =>
    if imgs.isEmpty then none
    else some (padTrim (m.director_reference_strength_values.getD []) imgs.length 1)

theorem applyDirectorReferenceDefaults_eq (m : Metadata) :
    applyDirectorReferenceDefaults m = {m with
      director_reference_descriptions := dirDescsResult m
      director_reference_images := dirImagesResult m
      director_reference_information_extracted := dirExtractedResult m
      director_reference_strength_values := dirStrengthsResult m} := by
  unfold applyDirectorReferenceDefaults dirDescsResult dirImagesResult
    dirExtractedResult dirStrengthsResult
  rcases hdi : m.director_reference_images with _ | imgs
  · rfl
  · dsimp only
    split_ifs <;> rfl

/-- `applyDefaultValues` as one record update. -/
theorem applyDefaultValues_eq (sd : Nat) (m0 : Metadata) :
    applyDefaultValues sd m0 = {m0 with
      model := some (m0.model.getD Model.v45)
      action := some (m0.action.getD Action.generate)
      resPreset := some (m0.resPreset.getD ("normal_portrait"))
      ucPreset := some (m0.ucPreset.getD 0)
      qualityToggle := some (m0.qualityToggle.getD true)
      n_samples := some (m0.n_samples.getD 1)
      steps := some (m0.steps.getD 28)
      scale := some (m0.scale.getD 6)
      dynamic_thresholding := some (m0.dynamic_thresholding.getD false)
      seed := some (m0.seed.getD sd)
      sampler := some (m0.sampler.getD Sampler.eulerAnc)
      cfg_rescale := some (m0.cfg_rescale.getD 0)
      noise_schedule := some (m0.noise_schedule.getD NoiseSchedule.karras)
      controlnet_strength := some (m0.controlnet_strength.getD 1)
      add_original_image := some (m0.add_original_image.getD true)
      autoSmea := some (m0.autoSmea.getD false)
      params_version := some (m0.params_version.getD 3)
      prompt := some (m0.prompt.getD ("1girl, cute"))
      negative_prompt := some (m0.negative_prompt.getD (""))
      characterPrompts := some (m0.characterPrompts.getD [])
      skip_cfg_above_sigma := some (m0.skip_cfg_above_sigma.getD none)
      legacy_uc := some (m0.legacy_uc.getD false)
      legacy := some (m0.legacy.getD false)
      legacy_v3_extend := some (m0.legacy_v3_extend.getD false)
      normalize_reference_strength_multiple :=
        some (m0.normalize_reference_strength_multiple.getD true)
      director_reference_descriptions := dirDescsResult m0
      director_reference_images := dirImagesResult m0
      director_reference_information_extracted := dirExtractedResult m0
      director_reference_strength_values := dirStrengthsResult m0
      stream := none} := by
  unfold applyDefaultValues
  dsimp only
  rw [applyDirectorReferenceDefaults_eq]
  simp only [dirDescsResult, dirImagesResult, dirExtractedResult, dirStrengthsResult]

/-- `handleResolution` unfolded. -/
theorem handleResolution_eq (m : Metadata) :
    handleResolution m =
      if (resolveDims m).1 * (resolveDims m).2 < 64 * 64 ∨
          3047424 < (resolveDims m).1 * (resolveDims m).2 then
        .error ("ValidationError: total resolution out of range")
      else .ok {m with width := some (resolveDims m).1, height := some (resolveDims m).2} :=
  rfl

/-- A successful `handleResolution` sets exactly the resolved dimensions. -/
theorem handleResolution_ok {m r : Metadata} (h : handleResolution m = .ok r) :
    r = {m with width := some (resolveDims m).1, height := some (resolveDims m).2} ∧
      ¬ ((resolveDims m).1 * (resolveDims m).2 < 64 * 64 ∨
        3047424 < (resolveDims m).1 * (resolveDims m).2) := by
  rw [handleResolution_eq] at h
  split_ifs at h with hc
  · cases h
    exact ⟨rfl, hc⟩

/-! ## C2: resolution validation -/

/-- C2 counterexample: contrary to the claim, `resolve(undefined, 10, 10)`
does **not** raise — rounding to multiples of 64 happens before validation,
so 10×10 becomes 64×64 = 4096 px, the minimum allowed. -/
theorem C2_counterexample :
    handleResolution {emptyMetadata with width := some 10, height := some 10} =
      .ok {emptyMetadata with width := some 64, height := some 64} := by
  rfl

/-- C2 (amended).  Normalization raises a validation error exactly when the
resolved (preset or rounded-up-to-64) width×height lies outside
`[4096, 3047424]`; in particular explicit `width=10, height=10` rounds up to
64×64 = 4096 px and succeeds. -/
theorem C2_resolution_validation :
    (∀ m : Metadata, (∃ e, handleResolution m = .error e) ↔
      ((resolveDims m).1 * (resolveDims m).2 < 4096 ∨
        3047424 < (resolveDims m).1 * (resolveDims m).2)) ∧
    (∀ (sd ed : Nat) (m : Metadata), (∃ e, processMetadata sd ed m = .error e) ↔
      ((resolveDims (applyDefaultValues sd m)).1 *
          (resolveDims (applyDefaultValues sd m)).2 < 4096 ∨
        3047424 < (resolveDims (applyDefaultValues sd m)).1 *
          (resolveDims (applyDefaultValues sd m)).2)) ∧
    handleResolution {emptyMetadata with width := some 10, height := some 10} =
      .ok {emptyMetadata with width := some 64, height := some 64} := by
  have hbase : ∀ m : Metadata, (∃ e, handleResolution m = .error e) ↔
      ((resolveDims m).1 * (resolveDims m).2 < 4096 ∨
        3047424 < (resolveDims m).1 * (resolveDims m).2) := by
    intro m
    rw [handleResolution_eq]
    constructor
    · rintro ⟨e, he⟩
      split_ifs at he with hc
      · simpa using hc
    · intro hc
      rw [if_pos (by simpa using hc)]
      exact ⟨_, rfl⟩
  refine ⟨hbase, ?_, by rfl⟩
  intro sd ed m
  unfold processMetadata
  cases hres : handleResolution (applyDefaultValues sd m) with
  | error e =>
    simp only []
    constructor
    · intro _
      exact (hbase _).1 ⟨e, hres⟩
    · intro _
      exact ⟨e, rfl⟩
  | ok r1 =>
    simp only []
    constructor
    · rintro ⟨e, he⟩
      cases he
    · intro hc
      obtain ⟨e, he⟩ := (hbase _).2 hc
      rw [hres] at he
      cases he

/-! ## Shared evaluation of a successful `processMetadata` run -/

/-- A successful run is `postResolution` applied to the defaulted input with
resolved dimensions. -/
theorem processMetadata_ok (sd ed : Nat) (x y : Metadata)
    (h : processMetadata sd ed x = .ok y) :
    y = postResolution ed {applyDefaultValues sd x with
      width := some (resolveDims (applyDefaultValues sd x)).1
      height := some (resolveDims (applyDefaultValues sd x)).2} := by
  unfold processMetadata at h
  cases hres : handleResolution (applyDefaultValues sd x) with
  | error e =>
    rw [hres] at h
    cases h
  | ok r1 =>
    rw [hres] at h
    cases h
    rw [(handleResolution_ok hres).1]

/-- `useCoordsResult` on a metadata with a present character-prompt list. -/
theorem useCoordsResult_eq {m : Metadata} {l : List CharacterPrompt}
    (h : m.characterPrompts = some l) :
    useCoordsResult m = l.any cpDeviates := by
  unfold useCoordsResult
  rw [h]
  dsimp only
  split_ifs with he
  · rw [List.isEmpty_iff.mp he]
    rfl
  · rfl

/-! ## C8: use_coords -/

/-- A request whose only character prompt is off-center but disabled. -/
def c8cex : Metadata :=
  {emptyMetadata with
    characterPrompts :=
      some [⟨"p", "u", some ⟨some (mkQ 3 10), some (mkQ 3 10)⟩, some false⟩]
    ucPreset := some 99
    qualityToggle := some false}

/-- Normalization output for `c8cex`. -/
def c8out : Metadata :=
  (processMetadata 1 1 c8cex).toOption.getD emptyMetadata

/-- C8 counterexample: the only character prompt is disabled (`enabled =
false`), yet normalization sets `use_coords = true` — the code never reads
`enabled` when computing `use_coords`. -/
theorem C8_counterexample :
    processMetadata 1 1 c8cex = .ok c8out ∧
    c8out.use_coords = some true ∧
    (c8cex.characterPrompts.getD []).all (fun cp => cp.enabled = some false) = true :=
  ⟨rfl, by decide, by decide⟩

/-- C8 (amended).  After successful normalization, `use_coords` is true iff
some supplied character prompt — enabled or not, centers evaluated before
defaulting, an absent center or coordinate counting as a deviation —
deviates from (0.5, 0.5). -/
theorem C8_use_coords (sd ed : Nat) (x y : Metadata)
    (h : processMetadata sd ed x = .ok y) :
    y.use_coords = some ((x.characterPrompts.getD []).any cpDeviates) := by
  rw [processMetadata_ok sd ed x y h, postResolution_eq, applyDefaultValues_eq]
  show some (useCoordsResult _) = _
  rw [useCoordsResult_eq rfl]

/-- C8 witness: the amended theorem evaluated on `c8cex`. -/
theorem C8_use_coords_witness :
    processMetadata 1 1 c8cex = .ok c8out ∧
    c8out.use_coords = some ((c8cex.characterPrompts.getD []).any cpDeviates) :=
  ⟨rfl, C8_use_coords 1 1 c8cex c8out rfl⟩

/-! ## C9: director-reference reconciliation -/

/-- `padTrim` written with `take` and `replicate` on the outside. -/
theorem padTrim_eq {α : Type} (l : List α) (n : Nat) (d : α) :
    padTrim l n d = l.take n ++ List.replicate (n - l.length) d := by
  unfold padTrim
  rcases Nat.le_total n l.length with h | h
  · rw [Nat.sub_eq_zero_of_le h]
    simp
  · rw [List.take_append_eq_append_take, List.take_of_length_le h,
      List.take_replicate, Nat.min_self]

/-- `padTrim` always returns exactly `n` elements. -/
theorem padTrim_length {α : Type} (l : List α) (n : Nat) (d : α) :
    (padTrim l n d).length = n := by
  unfold padTrim
  rw [List.length_take, List.length_append, List.length_replicate]
  omega

/-- The four director-reference fields of a successful run are the
reconciled values of the original input. -/
theorem processMetadata_director (sd ed : Nat) (x y : Metadata)
    (h : processMetadata sd ed x = .ok y) :
    y.director_reference_images = dirImagesResult x ∧
    y.director_reference_descriptions = dirDescsResult x ∧
    y.director_reference_information_extracted = dirExtractedResult x ∧
    y.director_reference_strength_values = dirStrengthsResult x := by
  rw [processMetadata_ok sd ed x y h, postResolution_eq, applyDefaultValues_eq]
  exact ⟨rfl, rfl, rfl, rfl⟩

/-- Three director images with one supplied strength value. -/
def c9cex : Metadata :=
  {emptyMetadata with
    director_reference_images := some [("i1"), ("i2"), ("i3")]
    director_reference_strength_values := some [qHalf]
    ucPreset := some 99
    qualityToggle := some false}

/-- Normalization output for `c9cex`. -/
def c9out : Metadata :=
  (processMetadata 1 1 c9cex).toOption.getD emptyMetadata

/-- C9 counterexample: the padded description entries are not empty-caption —
their `base_caption` is the string "character". -/
theorem C9_counterexample :
    processMetadata 1 1 c9cex = .ok c9out ∧
    c9out.director_reference_strength_values = some [qHalf, 1, 1] ∧
    c9out.director_reference_descriptions =
      some [defaultDirectorDesc, defaultDirectorDesc, defaultDirectorDesc] ∧
    defaultDirectorDesc.caption.base_caption = ("character") ∧
    ¬ defaultDirectorDesc.caption.base_caption = ("") :=
  ⟨rfl, by decide, by decide, rfl, by decide⟩

/-- C9 (amended).  If the image array is absent or empty, normalization
removes all four director-reference fields; otherwise the three companion
arrays are truncated to the image count and padded with the per-field
defaults — extraction 1, strength 1, and the description
`⟨⟨"character", []⟩, false⟩` (base_caption "character", not empty) — so all
three have length exactly the image count. -/
theorem C9_director_reference_lengths (sd ed : Nat) (x y : Metadata)
    (h : processMetadata sd ed x = .ok y) :
    ((x.director_reference_images = none ∨ x.director_reference_images = some []) →
      y.director_reference_images = none ∧
      y.director_reference_descriptions = none ∧
      y.director_reference_information_extracted = none ∧
      y.director_reference_strength_values = none) ∧
    (∀ imgs : List String, x.director_reference_images = some imgs → imgs ≠ [] →
      y.director_reference_images = some imgs ∧
      y.director_reference_descriptions =
        some ((x.director_reference_descriptions.getD []).take imgs.length ++
          List.replicate
            (imgs.length - (x.director_reference_descriptions.getD []).length)
            ⟨⟨("character"), []⟩, false⟩) ∧
      y.director_reference_information_extracted =
        some ((x.director_reference_information_extracted.getD []).take imgs.length ++
          List.replicate
            (imgs.length - (x.director_reference_information_extracted.getD []).length) 1) ∧
      y.director_reference_strength_values =
        some ((x.director_reference_strength_values.getD []).take imgs.length ++
          List.replicate
            (imgs.length - (x.director_reference_strength_values.getD []).length) 1) ∧
      (y.director_reference_descriptions.getD []).length = imgs.length ∧
      (y.director_reference_information_extracted.getD []).length = imgs.length ∧
      (y.director_reference_strength_values.getD []).length = imgs.length) := by
  obtain ⟨hi, hd, he, hs⟩ := processMetadata_director sd ed x y h
  constructor
  · rintro (hn | hn) <;>
      simp only [hi, hd, he, hs, dirImagesResult, dirDescsResult, dirExtractedResult,
        dirStrengthsResult, hn, List.isEmpty_nil, if_true] <;>
      exact ⟨trivial, trivial, trivial, trivial⟩
  · intro imgs him hne
    have hempty : imgs.isEmpty = false := by
      cases imgs with
      | nil => exact absurd rfl hne
      | cons a t => rfl
    simp only [hi, hd, he, hs, dirImagesResult, dirDescsResult, dirExtractedResult,
      dirStrengthsResult, him, hempty, Bool.false_eq_true, if_false, padTrim_eq,
      Option.getD_some]
    refine ⟨?_, ?_, ?_, ?_, ?_, ?_, ?_⟩ <;>
      first
        | trivial
        | rw [← padTrim_eq, padTrim_length]

/-- C9 witness: the amended theorem evaluated on `c9cex` (3 images, 1
strength value). -/
theorem C9_director_witness :
    processMetadata 1 1 c9cex = .ok c9out ∧
    (c9cex.director_reference_images = some [("i1"), ("i2"), ("i3")] ∧
      ([("i1"), ("i2"), ("i3")] : List String) ≠ []) ∧
    c9out.director_reference_strength_values =
      some ((c9cex.director_reference_strength_values.getD []).take 3 ++
        List.replicate (3 - (c9cex.director_reference_strength_values.getD []).length) 1) ∧
    (c9out.director_reference_descriptions.getD []).length = 3 :=
  ⟨rfl, ⟨rfl, by decide⟩,
    ((C9_director_reference_lengths 1 1 c9cex c9out rfl).2
      [("i1"), ("i2"), ("i3")] rfl (by decide)).2.2.2.1,
    by
      have hlen := ((C9_director_reference_lengths 1 1 c9cex c9out rfl).2
        [("i1"), ("i2"), ("i3")] rfl (by decide)).2.2.2.2.1
      simpa using hlen⟩

/-- C7: `deduplicateTags` satisfies the spec's contract: split on commas,
trim each segment, drop empty segments, keep the first case-insensitive
occurrence of each tag in original casing and order, rejoin with ", ";
empty input is returned unchanged; and the three example evaluations hold. -/
theorem C7_deduplicateTags_contract :
    (∀ s : String, deduplicateTags s = dedupeSpec s) ∧
    deduplicateTags ("a, A, b, a") = ("a, b") ∧
    deduplicateTags ("") = ("") ∧
    deduplicateTags (" x , x ,y") = ("x, y") := by
  refine ⟨?_, by decide, rfl, by decide⟩
  intro s
  by_cases h : s = ""
  · simp [deduplicateTags, dedupeSpec, h]
  · simp only [deduplicateTags, dedupeSpec, if_neg h, dedupeChars,
      dedupAux_eq_dedupKeep, specKeep_eq_dedupKeep, List.map_nil]
    rfl

/-! ## Wire-format conversion (src/utils/metadata-utils.ts, convert-utils.ts)

JSON-like JS values: `undefined` is modelled as an absent `Option` at the
field level (a present field holding `undefined` is `(key, none)`), `null`
is `JVal.null`.  Property enumeration of primitives is not modelled (it is
empty for numbers and booleans; the callers below never enumerate a string
or `null`). -/

inductive JVal where
  | str (s : String)
  | num (q : ℚ)
  | bool (b : Bool)
  | null
  | arr (items : List JVal)
  | obj (fields : List (String × JVal))

/-- JS truthiness of a defined value. -/
def jsTruthy : JVal → Bool
  | .str s => s ≠ ""
  | .num q => q ≠ 0
  | .bool b => b
  | .null => false
  | .arr _ => true
  | .obj _ => true

/-- Property access `v[k]` (`undefined` when absent or not an object). -/
def jget (v : JVal) (k : String) : Option JVal :=
  match v with
  | .obj fs => (fs.find? (fun kv => kv.1 = k)).map (fun kv => kv.2)
  | _ => none

/-- Optional chaining `o?.[k]`. -/
def jchain (o : Option JVal) (k : String) : Option JVal :=
  match o with
  | none => none
  | some .null => none
  | some v => jget v k

/-- `a || d` on a possibly-undefined left operand. -/
def jsOrJ (o : Option JVal) (d : JVal) : JVal :=
  match o with
  | none => d
  | some v => if jsTruthy v then v else d

/-- `camelToSnakeCase`: `str.replace(/[A-Z]/g, l => "_" + l.toLowerCase())`
over a character list. -/
def camelSnakeChars : List Char → List Char
  | [] => []
  | c :: cs =>
    if c.isUpper then '_' :: c.toLower :: camelSnakeChars cs
    else c :: camelSnakeChars cs

/-- `camelToSnakeCase` from `src/utils/convert-utils.ts`. -/
def camelToSnakeCase (s : String) : String :=
  ⟨camelSnakeChars s.data⟩

/-- Pick the output key: allow-listed keys keep their casing. -/
def targetKey (camelCaseFields : List String) (k : String) : String :=
  if k ∈ camelCaseFields then k else camelToSnakeCase k

/-! `convertObjectKeysToSnakeCase` (convert-utils.ts), split into its
mutually recursive pieces: `convEntries` walks an object's entries,
`convVal` is the per-value dispatch (recurse into non-null non-array
objects, map array items, keep everything else), `convItem` is the
array-item dispatch (`typeof item === "object"` also matches arrays, whose
`Object.entries` are index/value pairs, built by `convIdx`). -/
mutual

def convEntries (ccf : List String) : List (String × JVal) → List (String × JVal)
  | [] => []
  | (k, v) :: rest => (targetKey ccf k, convVal ccf v) :: convEntries ccf rest

def convIdx (ccf : List String) (i : Nat) : List JVal → List (String × JVal)
  | [] => []
  | v :: vs => (toString i, convVal ccf v) :: convIdx ccf (i + 1) vs

def convVal (ccf : List String) : JVal → JVal
  | .obj fs => .obj (convEntries ccf fs)
  | .arr items => .arr (convItems ccf items)
  | v => v

def convItems (ccf : List String) : List JVal → List JVal
  | [] => []
  | it :: rest => convItem ccf it :: convItems ccf rest

def convItem (ccf : List String) : JVal → JVal
  | .obj fs => .obj (convEntries ccf fs)
  | .arr vs => .obj (convIdx ccf 0 vs)
  | x => x

end

/-- `convertObjectKeysToSnakeCase` applied to an object. -/
def convertObjectKeysToSnakeCase (ccf : List String) (v : JVal) : JVal :=
  match v with
  | .obj fs => .obj (convEntries ccf fs)
  | .arr items => .obj (convIdx ccf 0 items)
  | _ => .obj []

/-- The camelCase allow-list of `prepareMetadataForApi`. -/
def camelCaseFields : List String :=
  [("ucPreset"), ("qualityToggle"), ("autoSmea"), ("characterPrompts"),
    ("v4_prompt"), ("v4_negative_prompt")]

/-- A character caption as rebuilt by the V4 converters. -/
def convCharCaption (cc : JVal) : JVal :=
  .obj [(("char_caption"), jsOrJ (jget cc ("charCaption")) (.str (""))),
    (("centers"), jsOrJ (jget cc ("centers")) (.arr []))]

/-- `charCaptions` handling shared by both V4 converters. -/
def convCharCaptions (v : JVal) : List JVal :=
  match jchain (jget v ("caption")) ("charCaptions") with
  | some (.arr items) => items.map convCharCaption
  | _ => []

/-- `convertV4Prompt` (metadata-utils.ts) on a truthy input. -/
def convertV4Prompt (v : JVal) : JVal :=
  .obj [(("caption"), .obj
      [(("base_caption"), jsOrJ (jchain (jget v ("caption")) ("baseCaption")) (.str (""))),
        (("char_captions"), .arr (convCharCaptions v))]),
    (("use_coords"), jsOrJ (jget v ("useCoords")) (.bool false)),
    (("use_order"), jsOrJ (jget v ("useOrder")) (.bool true))]

/-- `convertV4NegativePrompt` (metadata-utils.ts) on a truthy input. -/
def convertV4NegativePrompt (v : JVal) : JVal :=
  .obj [(("caption"), .obj
      [(("base_caption"), jsOrJ (jchain (jget v ("caption")) ("baseCaption")) (.str (""))),
        (("char_captions"), .arr (convCharCaptions v))]),
    (("legacy_uc"), jsOrJ (jget v ("legacyUc")) (.bool false))]

/-- `convertCharacterPrompts`: per-item snake-casing with the
prompt/uc/enabled allow-list. -/
def convertCharacterPrompts (items : List JVal) : List JVal :=
  items.map (convertObjectKeysToSnakeCase [("prompt"), ("uc"), ("enabled")])

/-- JS object assignment `o[k] = v`: overwrite in place or append. -/
def objSet (l : List (String × JVal)) (k : String) (v : JVal) : List (String × JVal) :=
  if l.any (fun kv => kv.1 = k) then
    l.map (fun kv => if kv.1 = k then (k, v) else kv)
  else l ++ [(k, v)]

/-- The `forEach` of `prepareMetadataForApi` building `formattedParams`. -/
def buildParams : List (String × Option JVal) → List (String × JVal) → List (String × JVal)
  | [], acc => acc
  | (_, none) :: rest, acc => buildParams rest acc
  | (k, some v) :: rest, acc =>
    if k = ("v4Prompt") then
      buildParams rest
        (if jsTruthy v then objSet acc ("v4_prompt") (convertV4Prompt v) else acc)
    else if k = ("v4NegativePrompt") then
      buildParams rest
        (if jsTruthy v then objSet acc ("v4_negative_prompt") (convertV4NegativePrompt v)
          else acc)
    else
      match v with
      | .arr items =>
        if k = ("characterPrompts") then
          buildParams rest
            (objSet acc ("characterPrompts") (.arr (convertCharacterPrompts items)))
        else buildParams rest (objSet acc (targetKey camelCaseFields k) (.arr items))
      | .obj gs =>
        buildParams rest
          (objSet acc (targetKey camelCaseFields k) (.obj (convEntries camelCaseFields gs)))
      | x => buildParams rest (objSet acc (targetKey camelCaseFields k) x)

/-- The reserved keys destructured away from `parameters`. -/
def reservedKeys : List String :=
  [("prompt"), ("model"), ("action"), ("resPreset")]

/-- Field access on the metadata record (`undefined` for an absent or
undefined-valued key). -/
def jget2 (fs : List (String × Option JVal)) (k : String) : Option JVal :=
  ((fs.find? (fun kv => kv.1 = k)).map (fun kv => kv.2)).join

/-- The wire payload: a metadata record is an assoc list (a present field
holding `undefined` is `(key, none)`). -/
structure Payload where
  input : Option JVal
  model : JVal
  action : JVal
  parameters : List (String × JVal)

/-- `prepareMetadataForApi` (metadata-utils.ts revision with the camelCase
allow-list). -/
def prepareMetadataForApi (fs : List (String × Option JVal)) : Payload :=
  { input := jget2 fs ("prompt")
    model := jsOrJ (jget2 fs ("model")) (.str ("nai-diffusion-3"))
    action := jsOrJ (jget2 fs ("action")) (.str ("generate"))
    parameters := buildParams (fs.filter (fun kv => kv.1 ∉ reservedKeys)) [] }

/-! ### Spec-side description of `parameters` (C6) -/

/-- Top-level value handling as the spec words it: nested objects are
snake-cased recursively, everything else (arrays included) is kept. -/
def topVal (ccf : List String) : JVal → JVal
  | .obj gs => .obj (convEntries ccf gs)
  | v => v

/-- Spec-side per-field output value. -/
def specVal (k : String) (v : JVal) : JVal :=
  if k = ("characterPrompts") then
    match v with
    | .arr items => .arr (convertCharacterPrompts items)
    | x => topVal camelCaseFields x
  else topVal camelCaseFields v

/-- Spec-side `parameters`: defined fields in order, keys through the
allow-list, undefined entries dropped. -/
def specParams (l : List (String × Option JVal)) : List (String × JVal) :=
  l.filterMap fun kv => kv.2.map fun v => (targetKey camelCaseFields kv.1, specVal kv.1 v)

/-! ### C6 lemmas -/

theorem objSet_append {l : List (String × JVal)} {k : String} (v : JVal)
    (h : k ∉ l.map Prod.fst) : objSet l k v = l ++ [(k, v)] := by
  have hc : ¬ (l.any (fun kv => kv.1 = k) = true) := by
    rw [List.any_eq_true]
    rintro ⟨x, hx, he⟩
    rw [decide_eq_true_eq] at he
    exact h (he ▸ List.mem_map_of_mem Prod.fst hx)
  unfold objSet
  rw [if_neg hc]

theorem specParams_cons_none (k : String) (l : List (String × Option JVal)) :
    specParams ((k, (none : Option JVal)) :: l) = specParams l := by
  simp [specParams]

theorem specParams_cons_some (k : String) (v : JVal) (l : List (String × Option JVal)) :
    specParams ((k, some v) :: l) =
      (targetKey camelCaseFields k, specVal k v) :: specParams l := by
  simp [specParams]

theorem mem_specParams {l : List (String × Option JVal)} {k : String} {v : JVal}
    (h : (k, some v) ∈ l) :
    (targetKey camelCaseFields k, specVal k v) ∈ specParams l :=
  List.mem_filterMap.mpr ⟨(k, some v), h, rfl⟩

theorem specParams_keys_sublist (l : List (String × Option JVal)) :
    ((specParams l).map Prod.fst).Sublist
      (l.map fun kv => targetKey camelCaseFields kv.1) := by
  induction l with
  | nil => simp [specParams]
  | cons hd tl ih =>
    obtain ⟨k, v?⟩ := hd
    cases v? with
    | none =>
      rw [specParams_cons_none]
      exact ih.cons _
    | some v =>
      rw [specParams_cons_some]
      simp only [List.map_cons]
      exact ih.cons₂ _

theorem target_notmem_specParams (k : String) :
    ∀ l : List (String × Option JVal),
      ((l.map fun kv => targetKey camelCaseFields kv.1).Nodup) →
      (k, (none : Option JVal)) ∈ l →
      targetKey camelCaseFields k ∉ (specParams l).map Prod.fst := by
  intro l
  induction l with
  | nil =>
    intro _ hk
    cases hk
  | cons hd tl ih =>
    intro hnd hk
    obtain ⟨k', v?⟩ := hd
    simp only [List.map_cons, List.nodup_cons] at hnd
    rcases List.mem_cons.mp hk with heq | htl
    · cases heq
      rw [specParams_cons_none]
      intro hmem
      exact hnd.1 ((specParams_keys_sublist tl).subset hmem)
    · cases v? with
      | none =>
        rw [specParams_cons_none]
        exact ih hnd.2 htl
      | some w =>
        rw [specParams_cons_some]
        simp only [List.map_cons, List.mem_cons]
        rintro (he | hm)
        · exact hnd.1 (he ▸ List.mem_map_of_mem (fun kv => targetKey camelCaseFields kv.1) htl)
        · exact ih hnd.2 htl hm

/-- One step of `buildParams` on a defined, non-special-V4 field. -/
theorem buildParams_cons_some (k : String) (v : JVal) (tl : List (String × Option JVal))
    (acc : List (String × JVal)) (h1 : k ≠ ("v4Prompt")) (h2 : k ≠ ("v4NegativePrompt")) :
    buildParams ((k, some v) :: tl) acc =
      buildParams tl (objSet acc (targetKey camelCaseFields k) (specVal k v)) := by
  have hkc : ∀ x : JVal, ¬ k = ("characterPrompts") →
      specVal k x = topVal camelCaseFields x := by
    intro x hk
    simp [specVal, hk]
  simp only [buildParams, if_neg h1, if_neg h2]
  cases v with
  | arr items =>
    dsimp only
    by_cases hc : k = ("characterPrompts")
    · subst hc
      rw [if_pos rfl]
      have ht : targetKey camelCaseFields ("characterPrompts") = ("characterPrompts") := rfl
      have hs : specVal ("characterPrompts") (.arr items) =
          .arr (convertCharacterPrompts items) := by
        simp [specVal]
      rw [ht, hs]
    · rw [if_neg hc, hkc _ hc]
      rfl
  | obj gs =>
    dsimp only
    have hs : specVal k (.obj gs) = .obj (convEntries camelCaseFields gs) := by
      by_cases hc : k = ("characterPrompts") <;> simp [specVal, topVal, hc]
    rw [hs]
  | str s =>
    dsimp only
    have hs : specVal k (.str s) = .str s := by
      by_cases hc : k = ("characterPrompts") <;> simp [specVal, topVal, hc]
    rw [hs]
  | num q =>
    dsimp only
    have hs : specVal k (.num q) = .num q := by
      by_cases hc : k = ("characterPrompts") <;> simp [specVal, topVal, hc]
    rw [hs]
  | bool b =>
    dsimp only
    have hs : specVal k (.bool b) = .bool b := by
      by_cases hc : k = ("characterPrompts") <;> simp [specVal, topVal, hc]
    rw [hs]
  | null =>
    dsimp only
    have hs : specVal k JVal.null = JVal.null := by
      by_cases hc : k = ("characterPrompts") <;> simp [specVal, topVal, hc]
    rw [hs]

/-- `formattedParams` is the in-order filter-map of the defined fields when
no two fields collide on their output key. -/
theorem buildParams_eq :
    ∀ (l : List (String × Option JVal)) (acc : List (String × JVal)),
      (∀ kv ∈ l, kv.1 ≠ ("v4Prompt") ∧ kv.1 ≠ ("v4NegativePrompt")) →
      (∀ kv ∈ l, kv.2.isSome = true →
        targetKey camelCaseFields kv.1 ∉ acc.map Prod.fst) →
      ((specParams l).map Prod.fst).Nodup →
      buildParams l acc = acc ++ specParams l := by
  intro l
  induction l with
  | nil =>
    intro acc _ _ _
    simp [buildParams, specParams]
  | cons hd tl ih =>
    intro acc hv hacc hnd
    obtain ⟨k, v?⟩ := hd
    cases v? with
    | none =>
      rw [show buildParams ((k, (none : Option JVal)) :: tl) acc = buildParams tl acc
        from rfl, specParams_cons_none]
      rw [specParams_cons_none] at hnd
      exact ih acc (fun kv h => hv kv (List.mem_cons_of_mem _ h))
        (fun kv h hs => hacc kv (List.mem_cons_of_mem _ h) hs) hnd
    | some v =>
      have h1 := (hv (k, some v) (List.mem_cons_self _ _)).1
      have h2 := (hv (k, some v) (List.mem_cons_self _ _)).2
      rw [buildParams_cons_some k v tl acc h1 h2,
        objSet_append _ (hacc (k, some v) (List.mem_cons_self _ _) rfl),
        specParams_cons_some]
      rw [specParams_cons_some] at hnd
      simp only [List.map_cons, List.nodup_cons] at hnd
      have hacc2 : ∀ kv ∈ tl, kv.2.isSome = true →
          targetKey camelCaseFields kv.1 ∉
            (acc ++ [(targetKey camelCaseFields k, specVal k v)]).map Prod.fst := by
        intro kv h hs
        simp only [List.map_append, List.map_cons, List.map_nil, List.mem_append,
          List.mem_singleton]
        rintro (hmem | hmem)
        · exact hacc kv (List.mem_cons_of_mem _ h) hs hmem
        · obtain ⟨w, hw⟩ := Option.isSome_iff_exists.mp hs
          have hkv : (kv.1, some w) ∈ tl := by
            rw [← hw]
            exact h
          have hmm := List.mem_map_of_mem Prod.fst (mem_specParams hkv)
          exact hnd.1 (hmem ▸ hmm)
      rw [ih (acc ++ [(targetKey camelCaseFields k, specVal k v)])
        (fun kv h => hv kv (List.mem_cons_of_mem _ h)) hacc2 hnd.2]
      simp

/-- C6: the wire payload has top level input/model/action/parameters;
`parameters` lists the defined, non-reserved fields in order, each key sent
through the camelCase allow-list (else snake-cased, recursively inside
nested objects), with undefined fields omitted and null fields kept as
null.  The hypotheses say the request does not use the camelCase
`v4Prompt`/`v4NegativePrompt` spellings (a normalized request stores these
under their allow-listed wire names) and that no two fields collide on
their output key. -/
theorem C6_prepareMetadataForApi_payload (fs : List (String × Option JVal))
    (hv4 : ∀ kv ∈ fs, kv.1 ≠ ("v4Prompt") ∧ kv.1 ≠ ("v4NegativePrompt"))
    (hnd : ((fs.filter (fun kv => kv.1 ∉ reservedKeys)).map
      (fun kv => targetKey camelCaseFields kv.1)).Nodup) :
    (prepareMetadataForApi fs).input = jget2 fs ("prompt") ∧
    (prepareMetadataForApi fs).model =
      jsOrJ (jget2 fs ("model")) (.str ("nai-diffusion-3")) ∧
    (prepareMetadataForApi fs).action =
      jsOrJ (jget2 fs ("action")) (.str ("generate")) ∧
    (prepareMetadataForApi fs).parameters =
      specParams (fs.filter (fun kv => kv.1 ∉ reservedKeys)) ∧
    (∀ k, (k, (none : Option JVal)) ∈ fs → k ∉ reservedKeys →
      targetKey camelCaseFields k ∉ ((prepareMetadataForApi fs).parameters).map Prod.fst) ∧
    (∀ k, (k, some JVal.null) ∈ fs → k ∉ reservedKeys →
      (targetKey camelCaseFields k, JVal.null) ∈ (prepareMetadataForApi fs).parameters) := by
  have hfil : ∀ kv, kv ∈ fs.filter (fun kv => kv.1 ∉ reservedKeys) → kv ∈ fs :=
    fun kv h => (List.mem_filter.mp h).1
  have hnd2 : ((specParams (fs.filter (fun kv => kv.1 ∉ reservedKeys))).map Prod.fst).Nodup :=
    hnd.sublist (specParams_keys_sublist _)
  have hparams : (prepareMetadataForApi fs).parameters =
      specParams (fs.filter (fun kv => kv.1 ∉ reservedKeys)) := by
    show buildParams _ [] = _
    rw [buildParams_eq _ [] (fun kv h => hv4 kv (hfil kv h)) (fun kv _ _ => by simp) hnd2]
    simp
  refine ⟨rfl, rfl, rfl, hparams, ?_, ?_⟩
  · intro k hk hres
    rw [hparams]
    exact target_notmem_specParams k _ hnd
      (List.mem_filter.mpr ⟨hk, by simpa using hres⟩)
  · intro k hk hres
    rw [hparams]
    have hm : (targetKey camelCaseFields k, specVal k JVal.null) ∈
        specParams (fs.filter (fun kv => kv.1 ∉ reservedKeys)) :=
      mem_specParams (List.mem_filter.mpr ⟨hk, by simpa using hres⟩)
    have hsv : specVal k JVal.null = JVal.null := by
      by_cases hc : k = ("characterPrompts") <;> simp [specVal, topVal, hc]
    rwa [hsv] at hm

/-- A defined metadata record exercising the C6 hypotheses. -/
def fsEx : List (String × Option JVal) :=
  [(("prompt"), some (.str ("1girl"))),
    (("model"), some (.str ("nai-diffusion-4-5-full"))),
    (("nSamples"), some (.num 2)),
    (("ucPreset"), some (.num 0)),
    (("legacyUc"), none),
    (("skipCfgAboveSigma"), some JVal.null)]

/-- C6 witness: the payload theorem applied to `fsEx`. -/
theorem C6_payload_witness :
    (∀ kv ∈ fsEx, kv.1 ≠ ("v4Prompt") ∧ kv.1 ≠ ("v4NegativePrompt")) ∧
    ((fsEx.filter (fun kv => kv.1 ∉ reservedKeys)).map
      (fun kv => targetKey camelCaseFields kv.1)).Nodup ∧
    (prepareMetadataForApi fsEx).parameters =
      specParams (fsEx.filter (fun kv => kv.1 ∉ reservedKeys)) :=
  ⟨by decide, by decide,
    (C6_prepareMetadataForApi_payload fsEx (by decide) (by decide)).2.2.2.1⟩

/-! ### C10 -/

/-- C10: `convertV4Prompt` sends a boolean (or absent) `useOrder` to
`use_order = true` — `useOrder || true` is `true` for both `false` and
`true` — and the normalizer-built V4 prompt structure hardcodes
`use_order := true`. -/
theorem C10_use_order_hardcoded :
    (∀ v : JVal,
      (jget v ("useOrder") = none ∨ ∃ b : Bool, jget v ("useOrder") = some (.bool b)) →
      jget (convertV4Prompt v) ("use_order") = some (.bool true)) ∧
    (∀ m : Metadata, m.v4_prompt = none → inV4Models m.model = true →
      ∃ vp : V4Prompt, (handleV4Prompt m).v4_prompt = some vp ∧ vp.use_order = true) := by
  constructor
  · intro v hv
    have hg : jget (convertV4Prompt v) ("use_order") =
        some (jsOrJ (jget v ("useOrder")) (.bool true)) := rfl
    rw [hg]
    rcases hv with h | ⟨b, h⟩
    · rw [h]
      rfl
    · rw [h]
      cases b <;> rfl
  · intro m h1 h2
    have hv : v4PromptResult m = some ⟨⟨m.prompt.getD (""),
        (m.characterPrompts.getD []).filterMap fun cp =>
          if cp.enabled = some true then some ⟨cp.prompt, [cp.center]⟩ else none⟩,
        m.use_coords.getD false, true⟩ := by
      unfold v4PromptResult
      rw [h1]
      simp [h2]
    exact ⟨⟨⟨m.prompt.getD (""),
        (m.characterPrompts.getD []).filterMap fun cp =>
          if cp.enabled = some true then some ⟨cp.prompt, [cp.center]⟩ else none⟩,
        m.use_coords.getD false, true⟩,
      by rw [handleV4Prompt_eq]; exact hv, rfl⟩

/-- C10 witness: `useOrder = false` still converts to `use_order = true`,
and the V4.5 normalizer path builds `use_order = true`. -/
theorem C10_use_order_witness :
    jget (convertV4Prompt (JVal.obj [(("useOrder"), JVal.bool false)])) ("use_order") =
      some (JVal.bool true) ∧
    ∃ vp : V4Prompt,
      (handleV4Prompt {emptyMetadata with model := some Model.v45}).v4_prompt = some vp ∧
      vp.use_order = true :=
  ⟨C10_use_order_hardcoded.1 _ (Or.inr ⟨false, rfl⟩),
    C10_use_order_hardcoded.2 _ rfl (by decide)⟩

/-! ## C3: idempotence of normalization -/

/-- Field-by-field extensionality for `Metadata`. -/
theorem metadata_fields_ext {a b : Metadata}
    (h1 : a.model = b.model) (h2 : a.action = b.action) (h3 : a.resPreset = b.resPreset)
    (h4 : a.ucPreset = b.ucPreset) (h5 : a.qualityToggle = b.qualityToggle)
    (h6 : a.n_samples = b.n_samples) (h7 : a.steps = b.steps) (h8 : a.scale = b.scale)
    (h9 : a.dynamic_thresholding = b.dynamic_thresholding) (h10 : a.seed = b.seed)
    (h11 : a.sampler = b.sampler) (h12 : a.cfg_rescale = b.cfg_rescale)
    (h13 : a.noise_schedule = b.noise_schedule)
    (h14 : a.controlnet_strength = b.controlnet_strength)
    (h15 : a.add_original_image = b.add_original_image) (h16 : a.autoSmea = b.autoSmea)
    (h17 : a.params_version = b.params_version) (h18 : a.prompt = b.prompt)
    (h19 : a.negative_prompt = b.negative_prompt)
    (h20 : a.characterPrompts = b.characterPrompts)
    (h21 : a.skip_cfg_above_sigma = b.skip_cfg_above_sigma)
    (h22 : a.legacy_uc = b.legacy_uc) (h23 : a.legacy = b.legacy)
    (h24 : a.legacy_v3_extend = b.legacy_v3_extend)
    (h25 : a.normalize_reference_strength_multiple = b.normalize_reference_strength_multiple)
    (h26 : a.reference_image_multiple = b.reference_image_multiple)
    (h27 : a.reference_strength_multiple = b.reference_strength_multiple)
    (h28 : a.director_reference_descriptions = b.director_reference_descriptions)
    (h29 : a.director_reference_images = b.director_reference_images)
    (h30 : a.director_reference_information_extracted =
      b.director_reference_information_extracted)
    (h31 : a.director_reference_strength_values = b.director_reference_strength_values)
    (h32 : a.width = b.width) (h33 : a.height = b.height) (h34 : a.strength = b.strength)
    (h35 : a.noise = b.noise) (h36 : a.extra_noise_seed = b.extra_noise_seed)
    (h37 : a.sm = b.sm) (h38 : a.sm_dyn = b.sm_dyn) (h39 : a.stream = b.stream)
    (h40 : a.inpaintImg2ImgStrength = b.inpaintImg2ImgStrength)
    (h41 : a.img2img = b.img2img) (h42 : a.v4_prompt = b.v4_prompt)
    (h43 : a.v4_negative_prompt = b.v4_negative_prompt)
    (h44 : a.deliberate_euler_ancestral_bug = b.deliberate_euler_ancestral_bug)
    (h45 : a.prefer_brownian = b.prefer_brownian) (h46 : a.use_coords = b.use_coords) :
    a = b := by
  cases a
  cases b
  congr 1

theorem roundTo64_idem (v : Nat) : roundTo64 (roundTo64 v) = roundTo64 v := by
  unfold roundTo64
  omega

set_option maxHeartbeats 1000000 in
/-- Every preset dimension pair is a fixed point of the 64-rounding. -/
theorem getResolutionDimensions_round (p : String) :
    roundTo64 (getResolutionDimensions p).1 = (getResolutionDimensions p).1 ∧
      roundTo64 (getResolutionDimensions p).2 = (getResolutionDimensions p).2 := by
  unfold getResolutionDimensions
  split_ifs <;> exact ⟨by decide, by decide⟩

/-- Every resolved dimension is a fixed point of the 64-rounding. -/
theorem resolveDims_round (m : Metadata) :
    roundTo64 (resolveDims m).1 = (resolveDims m).1 ∧
      roundTo64 (resolveDims m).2 = (resolveDims m).2 := by
  unfold resolveDims
  split_ifs with hw
  · rcases m.resPreset with _ | preset
    · exact ⟨by decide, by decide⟩
    · dsimp only
      split_ifs
      · exact ⟨by decide, by decide⟩
      · exact getResolutionDimensions_round preset
  · exact ⟨roundTo64_idem _, roundTo64_idem _⟩

theorem padTrim_self {α : Type} {l : List α} {n : Nat} (h : l.length = n) (d : α) :
    padTrim l n d = l := by
  unfold padTrim
  rw [h, Nat.sub_self, List.replicate_zero, List.append_nil, ← h, List.take_length]

/-- The director-reference reconciliation is a no-op on reconciled output. -/
theorem dir_stable (x0 m : Metadata)
    (h1 : m.director_reference_images = dirImagesResult x0)
    (h2 : m.director_reference_descriptions = dirDescsResult x0)
    (h3 : m.director_reference_information_extracted = dirExtractedResult x0)
    (h4 : m.director_reference_strength_values = dirStrengthsResult x0) :
    dirImagesResult m = m.director_reference_images ∧
    dirDescsResult m = m.director_reference_descriptions ∧
    dirExtractedResult m = m.director_reference_information_extracted ∧
    dirStrengthsResult m = m.director_reference_strength_values := by
  rcases hi : x0.director_reference_images with _ | imgs
  · rw [show dirImagesResult x0 = none from by unfold dirImagesResult; rw [hi]] at h1
    rw [show dirDescsResult x0 = none from by unfold dirDescsResult; rw [hi]] at h2
    rw [show dirExtractedResult x0 = none from by unfold dirExtractedResult; rw [hi]] at h3
    rw [show dirStrengthsResult x0 = none from by unfold dirStrengthsResult; rw [hi]] at h4
    unfold dirImagesResult dirDescsResult dirExtractedResult dirStrengthsResult
    rw [h1, h2, h3, h4]
    exact ⟨rfl, rfl, rfl, rfl⟩
  · by_cases he : imgs.isEmpty
    · rw [show dirImagesResult x0 = none from by unfold dirImagesResult; rw [hi]; simp [he]]
        at h1
      rw [show dirDescsResult x0 = none from by unfold dirDescsResult; rw [hi]; simp [he]]
        at h2
      rw [show dirExtractedResult x0 = none from by
        unfold dirExtractedResult; rw [hi]; simp [he]] at h3
      rw [show dirStrengthsResult x0 = none from by
        unfold dirStrengthsResult; rw [hi]; simp [he]] at h4
      unfold dirImagesResult dirDescsResult dirExtractedResult dirStrengthsResult
      rw [h1, h2, h3, h4]
      exact ⟨rfl, rfl, rfl, rfl⟩
    · rw [show dirImagesResult x0 = some imgs from by
        unfold dirImagesResult; rw [hi]; simp [he]] at h1
      rw [show dirDescsResult x0 =
          some (padTrim (x0.director_reference_descriptions.getD []) imgs.length
            defaultDirectorDesc) from by
        unfold dirDescsResult; rw [hi]; simp [he]] at h2
      rw [show dirExtractedResult x0 =
          some (padTrim (x0.director_reference_information_extracted.getD [])
            imgs.length 1) from by
        unfold dirExtractedResult; rw [hi]; simp [he]] at h3
      rw [show dirStrengthsResult x0 =
          some (padTrim (x0.director_reference_strength_values.getD []) imgs.length 1) from by
        unfold dirStrengthsResult; rw [hi]; simp [he]] at h4
      unfold dirImagesResult dirDescsResult dirExtractedResult dirStrengthsResult
      rw [h1, h2, h3, h4]
      simp only [Option.getD_some, he]
      refine ⟨rfl, ?_, ?_, ?_⟩ <;>
        rw [if_neg (by simp [he]), padTrim_self (padTrim_length _ _ _)]

theorem string_append_ne_empty_left {s : String} (t : String) (h : s ≠ "") :
    s ++ t ≠ "" := by
  intro hc
  apply h
  have hd := congrArg String.data hc
  rw [String.data_append] at hd
  rcases List.append_eq_nil.mp hd with ⟨h1, _⟩
  cases s
  simp only [String.data] at h1
  rw [h1]

theorem string_append_ne_empty_right (s : String) {t : String} (h : t ≠ "") :
    s ++ t ≠ "" := by
  intro hc
  apply h
  have hd := congrArg String.data hc
  rw [String.data_append] at hd
  rcases List.append_eq_nil.mp hd with ⟨_, h2⟩
  cases t
  simp only [String.data] at h2
  rw [h2]

theorem comma_space_ne_empty : (", " : String) ≠ "" := by decide

theorem comma_append_ne_empty (r : String) : ("," : String) ++ r ≠ "" :=
  string_append_ne_empty_left r (by decide)

theorem dedupeStep_idem (s : String) : dedupeStep (dedupeStep s) = dedupeStep s := by
  unfold dedupeStep
  by_cases h : s = ""
  · simp [h]
  · rw [if_neg h]
    by_cases h2 : deduplicateTags s = ""
    · simp [h2]
    · rw [if_neg h2, deduplicateTags_idem]

theorem dedupeStep_dedupeOpt (o : Option String) :
    dedupeStep (dedupeOpt o) = dedupeOpt o := by
  cases o with
  | none => rfl
  | some p => exact dedupeStep_idem p

/-- Re-appending the quality-tag suffix and re-deduplicating is a no-op
(the suffix is empty or starts with a comma). -/
theorem dedupeStep_quality_stable (p T : String)
    (hT : T = "" ∨ ∃ r, T = ("," : String) ++ r) :
    dedupeStep (dedupeStep (p ++ T) ++ T) = dedupeStep (p ++ T) := by
  rcases hT with hT | ⟨r, hT⟩
  · subst hT
    rw [String.append_empty, String.append_empty, dedupeStep_idem]
  · subst hT
    have hA : p ++ (("," : String) ++ r) ≠ "" :=
      string_append_ne_empty_right p (comma_append_ne_empty r)
    rw [show dedupeStep (p ++ (("," : String) ++ r)) =
      deduplicateTags (p ++ (("," : String) ++ r)) from if_neg hA]
    have hB : deduplicateTags (p ++ (("," : String) ++ r)) ++ (("," : String) ++ r) ≠ "" :=
      string_append_ne_empty_right _ (comma_append_ne_empty r)
    rw [show dedupeStep (deduplicateTags (p ++ (("," : String) ++ r)) ++
        (("," : String) ++ r)) =
      deduplicateTags (deduplicateTags (p ++ (("," : String) ++ r)) ++
        (("," : String) ++ r)) from if_neg hB]
    exact deduplicateTags_append_stable p r

/-- Re-prepending the negative-prompt boilerplate and re-deduplicating is a
no-op. -/
theorem dedupeStep_ucPrepend_stable (u n : String) :
    dedupeStep (u ++ ", " ++ dedupeStep (u ++ ", " ++ n)) =
      dedupeStep (u ++ ", " ++ n) := by
  have h0 : u ++ ", " ≠ "" := string_append_ne_empty_right u comma_space_ne_empty
  have h1 : u ++ ", " ++ n ≠ "" := string_append_ne_empty_left n h0
  rw [show dedupeStep (u ++ ", " ++ n) = deduplicateTags (u ++ ", " ++ n) from if_neg h1]
  have h2 : u ++ ", " ++ deduplicateTags (u ++ ", " ++ n) ≠ "" :=
    string_append_ne_empty_left _ h0
  rw [show dedupeStep (u ++ ", " ++ deduplicateTags (u ++ ", " ++ n)) =
    deduplicateTags (u ++ ", " ++ deduplicateTags (u ++ ", " ++ n)) from if_neg h2]
  exact deduplicateTags_prepend_stable u n

set_option maxHeartbeats 800000 in
/-- The quality-tag suffix is empty or comma-led. -/
theorem qualityTagsText_shape (M : Option Model) :
    qualityTagsText M = "" ∨ ∃ r, qualityTagsText M = ("," : String) ++ r := by
  unfold qualityTagsText
  split_ifs
  · exact Or.inr ⟨" very aesthetic, masterpiece, no text", by decide⟩
  · exact Or.inr ⟨" location, masterpiece, no text, -0.8::feet::, rating:general", by decide⟩
  · exact Or.inr ⟨" no text, best quality, very aesthetic, absurdres", by decide⟩
  · exact Or.inr ⟨" rating:general, amazing quality, very aesthetic, absurdres", by decide⟩
  · exact Or.inr ⟨" best quality, amazing quality, very aesthetic, absurdres", by decide⟩
  · exact Or.inr ⟨" \x7bbest quality\x7d, \x7bamazing quality\x7d", by decide⟩
  · exact Or.inl rfl

theorem jsOrQ_ne_zero (o : Option ℚ) {d : ℚ} (hd : d ≠ 0) : jsOrQ o d ≠ 0 := by
  unfold jsOrQ
  rcases o with _ | v
  · exact hd
  · dsimp only
    split_ifs with hv
    · exact hd
    · exact hv

theorem jsOrQ_some_of_ne_zero {v : ℚ} (d : ℚ) (h : v ≠ 0) : jsOrQ (some v) d = v := by
  unfold jsOrQ
  dsimp only
  rw [if_neg h]

theorem jsOrQ_some_zero_default (v : ℚ) : jsOrQ (some v) 0 = v := by
  unfold jsOrQ
  dsimp only
  split_ifs with h
  · exact h.symm
  · rfl

theorem jsOrNat_ne_zero (o : Option ℕ) {d : ℕ} (hd : d ≠ 0) : jsOrNat o d ≠ 0 := by
  unfold jsOrNat
  rcases o with _ | v
  · exact hd
  · dsimp only
    split_ifs with hv
    · exact hd
    · exact hv

theorem jsOrNat_some_of_ne_zero {v : ℕ} (d : ℕ) (h : v ≠ 0) : jsOrNat (some v) d = v := by
  unfold jsOrNat
  dsimp only
  rw [if_neg h]

/-- A character prompt with an explicit, fully-specified center. -/
def centerExplicit (cp : CharacterPrompt) : Bool :=
  match cp.center with
  | some c => c.x.isSome && c.y.isSome
  | none => false

/-- The per-character-prompt conditions under which normalization is
idempotent: an explicit two-coordinate center, a prompt that is empty or
deduplicates to a non-empty string, and a `uc` that is non-empty and
deduplicates to a non-empty string. -/
def C3cpOk (cp : CharacterPrompt) : Prop :=
  centerExplicit cp = true ∧
  (cp.prompt = "" ∨ deduplicateTags cp.prompt ≠ "") ∧
  cp.uc ≠ "" ∧ deduplicateTags cp.uc ≠ ""

instance (cp : CharacterPrompt) : Decidable (C3cpOk cp) := by
  unfold C3cpOk
  infer_instance

theorem normalizeCp_idem {cp : CharacterPrompt} (h : C3cpOk cp) :
    normalizeCp (normalizeCp cp) = normalizeCp cp := by
  obtain ⟨_, hp, hu1, hu2⟩ := h
  unfold normalizeCp
  dsimp only
  congr 1
  · by_cases hpe : cp.prompt = ""
    · rw [if_pos hpe]
      rw [if_neg (by decide), show deduplicateTags ("1girl, cute") = ("1girl, cute")
        from by decide]
    · rw [if_neg hpe]
      rcases hp with hp | hp
      · exact absurd hp hpe
      · rw [if_neg hp, deduplicateTags_idem]
  · rw [if_neg hu1, if_neg hu2, deduplicateTags_idem]

theorem cpDeviates_normalizeCp {cp : CharacterPrompt} (h : centerExplicit cp = true) :
    cpDeviates (normalizeCp cp) = cpDeviates cp := by
  unfold centerExplicit at h
  rcases hc : cp.center with _ | c
  · rw [hc] at h
    cases h
  · rw [hc] at h
    rw [Bool.and_eq_true] at h
    unfold cpDeviates normalizeCp
    rw [hc]
    dsimp only
    rcases hx : c.x with _ | a
    · rw [hx] at h
      simp at h
    · rcases hy : c.y with _ | b
      · rw [hy] at h
        simp at h
      · simp only [Option.getD_some]
        simp [hx, hy]

/-- A request whose only character prompt has an absent center and empty
prompt/uc: the first run marks `use_coords = true` (absent center deviates)
and defaults the fields; the second run sees the defaulted center (0.5,
0.5) and flips `use_coords` to false. -/
def c3cex : Metadata :=
  {emptyMetadata with
    characterPrompts := some [⟨"", "", none, none⟩]
    ucPreset := some 99
    qualityToggle := some false}

/-- First normalization of `c3cex`. -/
def c3out1 : Metadata :=
  (processMetadata 1 1 c3cex).toOption.getD emptyMetadata

/-- Second normalization of `c3cex`. -/
def c3out2 : Metadata :=
  (processMetadata 1 1 c3out1).toOption.getD emptyMetadata

/-- C3 counterexample: normalization is not idempotent — re-running it on
its own output flips `use_coords` and rewrites the defaulted character
prompt's `uc`, so the second output differs from the first. -/
theorem C3_counterexample :
    processMetadata 1 1 c3cex = .ok c3out1 ∧
    processMetadata 1 1 c3out1 = .ok c3out2 ∧
    c3out1.use_coords = some true ∧
    c3out2.use_coords = some false ∧
    c3out2 ≠ c3out1 :=
  ⟨rfl, rfl, by decide, by decide, by decide⟩

/-- `List.any` respects pointwise-equal predicates. -/
theorem any_congr_mem {α : Type} {p q : α → Bool} :
    ∀ {l : List α}, (∀ a ∈ l, p a = q a) → l.any p = l.any q := by
  intro l
  induction l with
  | nil => intro _; rfl
  | cons a t ih =>
    intro h
    simp only [List.any_cons]
    rw [h a (List.mem_cons_self _ _), ih fun b hb => h b (List.mem_cons_of_mem _ hb)]

/-- Setting `width`/`height` to their current values is a no-op. -/
theorem metadata_set_dims_self (m : Metadata) {a b : Option ℕ}
    (hw : m.width = a) (hh : m.height = b) :
    ({m with width := a, height := b} : Metadata) = m := by
  rw [← hw, ← hh]

theorem resolveDims_of_dims {m : Metadata} {a b : ℕ} (hw : m.width = some a)
    (hh : m.height = some b) : resolveDims m = (roundTo64 a, roundTo64 b) := by
  unfold resolveDims
  rw [hw, hh]
  rw [if_neg (by simp)]
  simp only [Option.getD_some]

set_option maxHeartbeats 4000000 in
/-- C3 (amended).  Normalization is idempotent on its own output provided
the first run's extra-noise draw is nonzero and every supplied character
prompt has an explicit two-coordinate center, a prompt that is empty or
deduplicates to a non-empty string, and a non-empty `uc` that deduplicates
to a non-empty string.  Without these conditions a second run can flip
`use_coords` (centers are defaulted after it is computed) or rewrite the
defaulted `uc` boilerplate `"lowres, aliasing,"` (its trailing comma does
not survive deduplication). -/
theorem C3_normalization_idempotent (sd ed : Nat) (x y : Metadata)
    (h : processMetadata sd ed x = .ok y) (hed : ed ≠ 0)
    (hcp : ∀ cp ∈ x.characterPrompts.getD ([]), C3cpOk cp) :
    ∀ sd2 ed2 : Nat, processMetadata sd2 ed2 y = .ok y := by
  intro sd2 ed2
  unfold processMetadata at h
  cases hres : handleResolution (applyDefaultValues sd x) with
  | error e =>
    rw [hres] at h
    cases h
  | ok r1 =>
    rw [hres] at h
    injection h with hy
    obtain ⟨hr1, hrange⟩ := handleResolution_ok hres
    -- r1 fields
    have hrM : r1.model = some (x.model.getD Model.v45) := by rw [hr1, applyDefaultValues_eq]
    have hrA : r1.action = some (x.action.getD Action.generate) := by
      rw [hr1, applyDefaultValues_eq]
    have hrRP : r1.resPreset = some (x.resPreset.getD ("normal_portrait")) := by
      rw [hr1, applyDefaultValues_eq]
    have hrUP : r1.ucPreset = some (x.ucPreset.getD 0) := by rw [hr1, applyDefaultValues_eq]
    have hrQT : r1.qualityToggle = some (x.qualityToggle.getD true) := by
      rw [hr1, applyDefaultValues_eq]
    have hrNS : r1.n_samples = some (x.n_samples.getD 1) := by rw [hr1, applyDefaultValues_eq]
    have hrSteps : r1.steps = some (x.steps.getD 28) := by rw [hr1, applyDefaultValues_eq]
    have hrScale : r1.scale = some (x.scale.getD 6) := by rw [hr1, applyDefaultValues_eq]
    have hrDyn : r1.dynamic_thresholding = some (x.dynamic_thresholding.getD false) := by
      rw [hr1, applyDefaultValues_eq]
    have hrSeed : r1.seed = some (x.seed.getD sd) := by rw [hr1, applyDefaultValues_eq]
    have hrSampler : r1.sampler = some (x.sampler.getD Sampler.eulerAnc) := by
      rw [hr1, applyDefaultValues_eq]
    have hrCfg : r1.cfg_rescale = some (x.cfg_rescale.getD 0) := by
      rw [hr1, applyDefaultValues_eq]
    have hrNoiSch : r1.noise_schedule = some (x.noise_schedule.getD NoiseSchedule.karras) := by
      rw [hr1, applyDefaultValues_eq]
    have hrCtrl : r1.controlnet_strength = some (x.controlnet_strength.getD 1) := by
      rw [hr1, applyDefaultValues_eq]
    have hrAdd : r1.add_original_image = some (x.add_original_image.getD true) := by
      rw [hr1, applyDefaultValues_eq]
    have hrAuto : r1.autoSmea = some (x.autoSmea.getD false) := by
      rw [hr1, applyDefaultValues_eq]
    have hrParams : r1.params_version = some (x.params_version.getD 3) := by
      rw [hr1, applyDefaultValues_eq]
    have hrP : r1.prompt = some (x.prompt.getD ("1girl, cute")) := by
      rw [hr1, applyDefaultValues_eq]
    have hrN : r1.negative_prompt = some (x.negative_prompt.getD ("")) := by
      rw [hr1, applyDefaultValues_eq]
    have hrCP : r1.characterPrompts = some (x.characterPrompts.getD []) := by
      rw [hr1, applyDefaultValues_eq]
    have hrSkip : r1.skip_cfg_above_sigma = some (x.skip_cfg_above_sigma.getD none) := by
      rw [hr1, applyDefaultValues_eq]
    have hrLUC : r1.legacy_uc = some (x.legacy_uc.getD false) := by
      rw [hr1, applyDefaultValues_eq]
    have hrLeg : r1.legacy = some (x.legacy.getD false) := by rw [hr1, applyDefaultValues_eq]
    have hrLeg3 : r1.legacy_v3_extend = some (x.legacy_v3_extend.getD false) := by
      rw [hr1, applyDefaultValues_eq]
    have hrNorm : r1.normalize_reference_strength_multiple =
        some (x.normalize_reference_strength_multiple.getD true) := by
      rw [hr1, applyDefaultValues_eq]
    have hrStream : r1.stream = none := by rw [hr1, applyDefaultValues_eq]
    have hrDirD : r1.director_reference_descriptions = dirDescsResult x := by
      rw [hr1, applyDefaultValues_eq]
    have hrDirI : r1.director_reference_images = dirImagesResult x := by
      rw [hr1, applyDefaultValues_eq]
    have hrDirE : r1.director_reference_information_extracted = dirExtractedResult x := by
      rw [hr1, applyDefaultValues_eq]
    have hrDirS : r1.director_reference_strength_values = dirStrengthsResult x := by
      rw [hr1, applyDefaultValues_eq]
    have hrStr : r1.strength = x.strength := by rw [hr1, applyDefaultValues_eq]
    have hrNoise : r1.noise = x.noise := by rw [hr1, applyDefaultValues_eq]
    have hrEns : r1.extra_noise_seed = x.extra_noise_seed := by
      rw [hr1, applyDefaultValues_eq]
    -- y fields (first-run output)
    have hyM : y.model = r1.model := by rw [← hy, postResolution_eq]
    have hyA : y.action = r1.action := by rw [← hy, postResolution_eq]
    have hyRP : y.resPreset = r1.resPreset := by rw [← hy, postResolution_eq]
    have hyUP : y.ucPreset = r1.ucPreset := by rw [← hy, postResolution_eq]
    have hyQT : y.qualityToggle = r1.qualityToggle := by rw [← hy, postResolution_eq]
    have hyNS : y.n_samples = r1.n_samples := by rw [← hy, postResolution_eq]
    have hySteps : y.steps = r1.steps := by rw [← hy, postResolution_eq]
    have hyScale : y.scale = r1.scale := by rw [← hy, postResolution_eq]
    have hyDyn : y.dynamic_thresholding = r1.dynamic_thresholding := by
      rw [← hy, postResolution_eq]
    have hySeed : y.seed = r1.seed := by rw [← hy, postResolution_eq]
    have hySampler : y.sampler = r1.sampler := by rw [← hy, postResolution_eq]
    have hyCfg : y.cfg_rescale = r1.cfg_rescale := by rw [← hy, postResolution_eq]
    have hyNoiSch : y.noise_schedule = r1.noise_schedule := by rw [← hy, postResolution_eq]
    have hyCtrl : y.controlnet_strength = r1.controlnet_strength := by
      rw [← hy, postResolution_eq]
    have hyAdd : y.add_original_image = r1.add_original_image := by
      rw [← hy, postResolution_eq]
    have hyAuto : y.autoSmea = r1.autoSmea := by rw [← hy, postResolution_eq]
    have hyParams : y.params_version = r1.params_version := by rw [← hy, postResolution_eq]
    have hySkip : y.skip_cfg_above_sigma = r1.skip_cfg_above_sigma := by
      rw [← hy, postResolution_eq]
    have hyLUC : y.legacy_uc = r1.legacy_uc := by rw [← hy, postResolution_eq]
    have hyLeg : y.legacy = r1.legacy := by rw [← hy, postResolution_eq]
    have hyLeg3 : y.legacy_v3_extend = r1.legacy_v3_extend := by rw [← hy, postResolution_eq]
    have hyNorm : y.normalize_reference_strength_multiple =
        r1.normalize_reference_strength_multiple := by rw [← hy, postResolution_eq]
    have hyDirD : y.director_reference_descriptions =
        r1.director_reference_descriptions := by rw [← hy, postResolution_eq]
    have hyDirI : y.director_reference_images = r1.director_reference_images := by
      rw [← hy, postResolution_eq]
    have hyDirE : y.director_reference_information_extracted =
        r1.director_reference_information_extracted := by rw [← hy, postResolution_eq]
    have hyDirS : y.director_reference_strength_values =
        r1.director_reference_strength_values := by rw [← hy, postResolution_eq]
    have hyW : y.width = r1.width := by rw [← hy, postResolution_eq]
    have hyH : y.height = r1.height := by rw [← hy, postResolution_eq]
    have hyP : y.prompt = some (dedupeOpt (qualityResult r1)) := by
      rw [← hy, postResolution_eq]
    have hyN : y.negative_prompt = some (dedupeStep (ucPrependResult r1)) := by
      rw [← hy, postResolution_eq]
    have hySm : y.sm = (if inV4Models r1.model then none
        else if actionCond r1 then some false else r1.sm) := by
      rw [← hy, postResolution_eq]
    have hySmD : y.sm_dyn = (if inV4Models r1.model then none
        else if actionCond r1 then some false else r1.sm_dyn) := by
      rw [← hy, postResolution_eq]
    have hyStr : y.strength = finalStrength r1 := by rw [← hy, postResolution_eq]
    have hyNoise2 : y.noise = (if actionCond r1 then some (jsOrQ r1.noise 0)
        else r1.noise) := by rw [← hy, postResolution_eq]
    have hyEns2 : y.extra_noise_seed = (if actionCond r1
        then some (jsOrNat r1.extra_noise_seed ed) else r1.extra_noise_seed) := by
      rw [← hy, postResolution_eq]
    have hyUCo : y.use_coords = some (useCoordsResult r1) := by
      rw [← hy, postResolution_eq]
    have hyCPs : y.characterPrompts = cpsResult r1 := by rw [← hy, postResolution_eq]
    have hyStream2 : y.stream = (if streamCond r1 then some ("msgpack")
        else r1.stream) := by rw [← hy, postResolution_eq]
    have hyV4 : y.v4_prompt = finalV4Prompt r1 := by rw [← hy, postResolution_eq]
    have hyV4N : y.v4_negative_prompt = finalV4Negative r1 := by
      rw [← hy, postResolution_eq]
    have hyDeb2 : y.deliberate_euler_ancestral_bug =
        (if r1.sampler = some Sampler.eulerAnc then some false
          else r1.deliberate_euler_ancestral_bug) := by rw [← hy, postResolution_eq]
    have hyPref2 : y.prefer_brownian = (if r1.sampler = some Sampler.eulerAnc
        then some true else r1.prefer_brownian) := by rw [← hy, postResolution_eq]
    have hyIIS2 : y.inpaintImg2ImgStrength = (if v45Cond r1 then some (finalInpaintVal r1)
        else r1.inpaintImg2ImgStrength) := by rw [← hy, postResolution_eq]
    have hyImg2 : y.img2img = (if v45Cond r1 then
        (if finalInpaintVal r1 < 1 then some ⟨finalInpaintVal r1, true⟩ else none)
        else r1.img2img) := by rw [← hy, postResolution_eq]
    -- combined
    have hyMX : y.model = some (x.model.getD Model.v45) := hyM.trans hrM
    have hyAX : y.action = some (x.action.getD Action.generate) := hyA.trans hrA
    have hyRPX : y.resPreset = some (x.resPreset.getD ("normal_portrait")) :=
      hyRP.trans hrRP
    have hyUPX : y.ucPreset = some (x.ucPreset.getD 0) := hyUP.trans hrUP
    have hyQTX : y.qualityToggle = some (x.qualityToggle.getD true) := hyQT.trans hrQT
    have hyNSX : y.n_samples = some (x.n_samples.getD 1) := hyNS.trans hrNS
    have hyStepsX : y.steps = some (x.steps.getD 28) := hySteps.trans hrSteps
    have hyScaleX : y.scale = some (x.scale.getD 6) := hyScale.trans hrScale
    have hyDynX : y.dynamic_thresholding = some (x.dynamic_thresholding.getD false) :=
      hyDyn.trans hrDyn
    have hySeedX : y.seed = some (x.seed.getD sd) := hySeed.trans hrSeed
    have hySamplerX : y.sampler = some (x.sampler.getD Sampler.eulerAnc) :=
      hySampler.trans hrSampler
    have hyCfgX : y.cfg_rescale = some (x.cfg_rescale.getD 0) := hyCfg.trans hrCfg
    have hyNoiSchX : y.noise_schedule = some (x.noise_schedule.getD NoiseSchedule.karras) :=
      hyNoiSch.trans hrNoiSch
    have hyCtrlX : y.controlnet_strength = some (x.controlnet_strength.getD 1) :=
      hyCtrl.trans hrCtrl
    have hyAddX : y.add_original_image = some (x.add_original_image.getD true) :=
      hyAdd.trans hrAdd
    have hyAutoX : y.autoSmea = some (x.autoSmea.getD false) := hyAuto.trans hrAuto
    have hyParamsX : y.params_version = some (x.params_version.getD 3) :=
      hyParams.trans hrParams
    have hySkipX : y.skip_cfg_above_sigma = some (x.skip_cfg_above_sigma.getD none) :=
      hySkip.trans hrSkip
    have hyLUCX : y.legacy_uc = some (x.legacy_uc.getD false) := hyLUC.trans hrLUC
    have hyLegX : y.legacy = some (x.legacy.getD false) := hyLeg.trans hrLeg
    have hyLeg3X : y.legacy_v3_extend = some (x.legacy_v3_extend.getD false) :=
      hyLeg3.trans hrLeg3
    have hyNormX : y.normalize_reference_strength_multiple =
        some (x.normalize_reference_strength_multiple.getD true) := hyNorm.trans hrNorm
    have hyDirDX : y.director_reference_descriptions = dirDescsResult x :=
      hyDirD.trans hrDirD
    have hyDirIX : y.director_reference_images = dirImagesResult x := hyDirI.trans hrDirI
    have hyDirEX : y.director_reference_information_extracted = dirExtractedResult x :=
      hyDirE.trans hrDirE
    have hyDirSX : y.director_reference_strength_values = dirStrengthsResult x :=
      hyDirS.trans hrDirS
    have hds := dir_stable x y hyDirIX hyDirDX hyDirEX hyDirSX
    have hyCPsSome : y.characterPrompts =
        some (if (x.characterPrompts.getD []).isEmpty then x.characterPrompts.getD []
          else (x.characterPrompts.getD []).map normalizeCp) := by
      rw [hyCPs]
      unfold cpsResult
      rw [hrCP]
      dsimp only
      split_ifs <;> rfl
    -- second-run defaulting is a no-op except for stream
    have hD2 : applyDefaultValues sd2 y = {y with stream := none} := by
      rw [applyDefaultValues_eq]
      simp only [hyMX, hyAX, hyRPX, hyUPX, hyQTX, hyNSX, hyStepsX, hyScaleX, hyDynX,
        hySeedX, hySamplerX, hyCfgX, hyNoiSchX, hyCtrlX, hyAddX, hyAutoX, hyParamsX,
        hyP, hyN, hyCPsSome, hySkipX, hyLUCX, hyLegX, hyLeg3X, hyNormX,
        hds.1, hds.2.1, hds.2.2.1, hds.2.2.2, Option.getD_some]
    -- second-run resolution is a no-op
    have hyWX : y.width = some (resolveDims (applyDefaultValues sd x)).1 := by
      rw [hyW, hr1]
    have hyHX : y.height = some (resolveDims (applyDefaultValues sd x)).2 := by
      rw [hyH, hr1]
    have hres2 : handleResolution {y with stream := none} =
        .ok {y with stream := none} := by
      rw [handleResolution_eq]
      have hrdy : resolveDims {y with stream := none} =
          ((resolveDims (applyDefaultValues sd x)).1,
            (resolveDims (applyDefaultValues sd x)).2) := by
        have h0 : resolveDims {y with stream := none} = resolveDims y := rfl
        rw [h0, resolveDims_of_dims hyWX hyHX,
          (resolveDims_round (applyDefaultValues sd x)).1,
          (resolveDims_round (applyDefaultValues sd x)).2]
      rw [hrdy]
      dsimp only
      rw [if_neg hrange]
      exact congrArg Except.ok (metadata_set_dims_self ({y with stream := none}) hyWX hyHX)
    -- shared condition transports
    have hacy : actionCond y = actionCond r1 := by unfold actionCond; rw [hyA]
    have hmvy : inV4Models y.model = inV4Models r1.model := by rw [hyM]
    have hstcy : streamCond y = streamCond r1 := by unfold streamCond; rw [hyM, hyA]
    have hv45y : v45Cond y = v45Cond r1 := by unfold v45Cond; rw [hyM]
    -- the second run
    unfold processMetadata
    rw [hD2, hres2]
    refine congrArg Except.ok ?_
    rw [postResolution_eq]
    apply metadata_fields_ext
    · rfl
    · rfl
    · rfl
    · rfl
    · rfl
    · rfl
    · rfl
    · rfl
    · rfl
    · rfl
    · rfl
    · rfl
    · rfl
    · rfl
    · rfl
    · rfl
    · rfl
    · -- prompt
      show some (dedupeOpt (qualityResult y)) = y.prompt
      rcases hqt : x.qualityToggle.getD true with _ | _
      · have h1 : qualityResult y = y.prompt := by
          unfold qualityResult
          rw [hyQTX, hqt]
          simp
        rw [h1, hyP]
        exact congrArg some (dedupeStep_dedupeOpt _)
      · have hQR1 : qualityResult r1 = some ((x.prompt.getD ("1girl, cute")) ++
            qualityTagsText (some (x.model.getD Model.v45))) := by
          unfold qualityResult
          rw [hrQT, hqt, hrP, hrM]
          simp
        have hyPX : y.prompt = some (dedupeStep ((x.prompt.getD ("1girl, cute")) ++
            qualityTagsText (some (x.model.getD Model.v45)))) := by
          rw [hyP, hQR1]
          rfl
        have h2 : qualityResult y = some (y.prompt.getD ("") ++
            qualityTagsText (some (x.model.getD Model.v45))) := by
          unfold qualityResult
          rw [hyQTX, hqt, hyMX]
          simp
        rw [h2, hyPX]
        simp only [Option.getD_some]
        exact congrArg some (dedupeStep_quality_stable _ _ (qualityTagsText_shape _))
    · -- negative prompt
      show some (dedupeStep (ucPrependResult y)) = y.negative_prompt
      have hU : ucPrependResult y = ucPresetText (some (x.model.getD Model.v45))
          (some (x.ucPreset.getD 0)) ++ ", " ++ y.negative_prompt.getD ("") := by
        unfold ucPrependResult
        rw [hyMX, hyUPX]
      have hUr1 : ucPrependResult r1 = ucPresetText (some (x.model.getD Model.v45))
          (some (x.ucPreset.getD 0)) ++ ", " ++ (x.negative_prompt.getD ("")) := by
        unfold ucPrependResult
        rw [hrM, hrUP, hrN]
        simp only [Option.getD_some]
      rw [hU, hyN, hUr1]
      simp only [Option.getD_some]
      exact congrArg some (dedupeStep_ucPrepend_stable _ _)
    · -- character prompts
      show cpsResult y = y.characterPrompts
      by_cases hL : (x.characterPrompts.getD []).isEmpty
      · have hyCPsE : y.characterPrompts = some (x.characterPrompts.getD []) := by
          rw [hyCPsSome, if_pos hL]
        unfold cpsResult
        rw [hyCPsE]
        dsimp only
        rw [if_pos hL]
      · have hyCPsM : y.characterPrompts =
            some ((x.characterPrompts.getD []).map normalizeCp) := by
          rw [hyCPsSome, if_neg hL]
        unfold cpsResult
        rw [hyCPsM]
        dsimp only
        have hme : ((x.characterPrompts.getD []).map normalizeCp).isEmpty = false := by
          cases hc : (x.characterPrompts.getD []).map normalizeCp with
          | nil =>
            rw [List.map_eq_nil_iff] at hc
            exact absurd (by rw [hc]; rfl) hL
          | cons a t => rfl
        rw [if_neg (by simp [hme])]
        refine congrArg some ?_
        rw [List.map_map]
        refine List.map_congr_left ?_
        intro a ha
        exact normalizeCp_idem (hcp a ha)
    · rfl
    · rfl
    · rfl
    · rfl
    · rfl
    · rfl
    · rfl
    · rfl
    · rfl
    · rfl
    · rfl
    · rfl
    · rfl
    · -- strength
      show finalStrength y = y.strength
      unfold finalStrength
      by_cases hac : actionCond r1 = true
      · rw [if_pos (by rw [hacy]; exact hac)]
        have hyStrV : y.strength = some (jsOrQ x.strength qStrengthDefault) := by
          rw [hyStr]
          unfold finalStrength
          rw [if_pos hac, hrStr]
        rw [hyStrV]
        exact congrArg some
          (jsOrQ_some_of_ne_zero _ (jsOrQ_ne_zero _ (by decide)))
      · rw [if_neg (by rw [hacy]; exact hac)]
    · -- noise
      show (if actionCond y then some (jsOrQ y.noise 0) else y.noise) = y.noise
      by_cases hac : actionCond r1 = true
      · rw [if_pos (by rw [hacy]; exact hac)]
        have hnv : y.noise = some (jsOrQ x.noise 0) := by
          rw [hyNoise2, if_pos hac, hrNoise]
        rw [hnv]
        exact congrArg some (jsOrQ_some_zero_default _)
      · rw [if_neg (by rw [hacy]; exact hac)]
    · -- extra noise seed
      show (if actionCond y then some (jsOrNat y.extra_noise_seed ed2)
          else y.extra_noise_seed) = y.extra_noise_seed
      by_cases hac : actionCond r1 = true
      · rw [if_pos (by rw [hacy]; exact hac)]
        have hev : y.extra_noise_seed = some (jsOrNat x.extra_noise_seed ed) := by
          rw [hyEns2, if_pos hac, hrEns]
        rw [hev]
        exact congrArg some (jsOrNat_some_of_ne_zero _ (jsOrNat_ne_zero _ hed))
      · rw [if_neg (by rw [hacy]; exact hac)]
    · -- sm
      show (if inV4Models y.model then none
          else if actionCond y then some false else y.sm) = y.sm
      by_cases hv4 : inV4Models r1.model = true
      · rw [if_pos (by rw [hmvy]; exact hv4), hySm, if_pos hv4]
      · rw [if_neg (by rw [hmvy]; exact hv4)]
        by_cases hac : actionCond r1 = true
        · rw [if_pos (by rw [hacy]; exact hac), hySm, if_neg hv4, if_pos hac]
        · rw [if_neg (by rw [hacy]; exact hac)]
    · -- sm_dyn
      show (if inV4Models y.model then none
          else if actionCond y then some false else y.sm_dyn) = y.sm_dyn
      by_cases hv4 : inV4Models r1.model = true
      · rw [if_pos (by rw [hmvy]; exact hv4), hySmD, if_pos hv4]
      · rw [if_neg (by rw [hmvy]; exact hv4)]
        by_cases hac : actionCond r1 = true
        · rw [if_pos (by rw [hacy]; exact hac), hySmD, if_neg hv4, if_pos hac]
        · rw [if_neg (by rw [hacy]; exact hac)]
    · -- stream
      show (if streamCond y then some ("msgpack") else (none : Option String)) = y.stream
      by_cases hst : streamCond r1 = true
      · rw [if_pos (by rw [hstcy]; exact hst), hyStream2, if_pos hst]
      · rw [if_neg (by rw [hstcy]; exact hst), hyStream2, if_neg hst, hrStream]
    · -- inpaintImg2ImgStrength
      show (if v45Cond y then some (finalInpaintVal y)
          else y.inpaintImg2ImgStrength) = y.inpaintImg2ImgStrength
      by_cases h45 : v45Cond r1 = true
      · rw [if_pos (by rw [hv45y]; exact h45)]
        have hiv : y.inpaintImg2ImgStrength = some (finalInpaintVal r1) := by
          rw [hyIIS2, if_pos h45]
        have hfv : finalInpaintVal y = finalInpaintVal r1 := by
          show y.inpaintImg2ImgStrength.getD ((finalStrength y).getD 1) = finalInpaintVal r1
          rw [hiv]
          simp only [Option.getD_some]
        rw [hfv, hiv]
      · rw [if_neg (by rw [hv45y]; exact h45)]
    · -- img2img
      show (if v45Cond y then
          (if finalInpaintVal y < 1 then some ⟨finalInpaintVal y, true⟩ else none)
          else y.img2img) = y.img2img
      by_cases h45 : v45Cond r1 = true
      · rw [if_pos (by rw [hv45y]; exact h45)]
        have hiv : y.inpaintImg2ImgStrength = some (finalInpaintVal r1) := by
          rw [hyIIS2, if_pos h45]
        have hfv : finalInpaintVal y = finalInpaintVal r1 := by
          show y.inpaintImg2ImgStrength.getD ((finalStrength y).getD 1) = finalInpaintVal r1
          rw [hiv]
          simp only [Option.getD_some]
        rw [hfv, hyImg2, if_pos h45]
      · rw [if_neg (by rw [hv45y]; exact h45)]
    · -- v4_prompt
      show finalV4Prompt y = y.v4_prompt
      unfold finalV4Prompt
      split_ifs with hs hnv
      all_goals try rfl
      exfalso
      apply hs
      rw [hyV4]
      unfold finalV4Prompt
      split_ifs with a b
      all_goals first
        | rfl
        | exact a
        | (rw [hyM] at hnv; exact absurd hnv b)
    · -- v4_negative_prompt
      show finalV4Negative y = y.v4_negative_prompt
      unfold finalV4Negative
      split_ifs with hs hnv
      all_goals try rfl
      exfalso
      apply hs
      rw [hyV4N]
      unfold finalV4Negative
      split_ifs with a b
      all_goals first
        | rfl
        | exact a
        | (rw [hyM] at hnv; exact absurd hnv b)
    · -- deliberate_euler_ancestral_bug
      show (if y.sampler = some Sampler.eulerAnc then some false
          else y.deliberate_euler_ancestral_bug) = y.deliberate_euler_ancestral_bug
      by_cases hsc : r1.sampler = some Sampler.eulerAnc
      · rw [if_pos (by rw [hySampler]; exact hsc), hyDeb2, if_pos hsc]
      · rw [if_neg (by rw [hySampler]; exact hsc)]
    · -- prefer_brownian
      show (if y.sampler = some Sampler.eulerAnc then some true
          else y.prefer_brownian) = y.prefer_brownian
      by_cases hsc : r1.sampler = some Sampler.eulerAnc
      · rw [if_pos (by rw [hySampler]; exact hsc), hyPref2, if_pos hsc]
      · rw [if_neg (by rw [hySampler]; exact hsc)]
    · -- use_coords
      show some (useCoordsResult y) = y.use_coords
      have hucy := useCoordsResult_eq hyCPsSome
      have hucr1 := useCoordsResult_eq hrCP
      rw [hucy, hyUCo, hucr1]
      refine congrArg some ?_
      by_cases hL : (x.characterPrompts.getD []).isEmpty
      · rw [if_pos hL]
      · rw [if_neg hL]
        rw [List.any_map]
        refine any_congr_mem ?_
        intro a ha
        exact cpDeviates_normalizeCp (hcp a ha).1

/-- A request satisfying the amended-C3 conditions. -/
def c3wit : Metadata :=
  {emptyMetadata with
    ucPreset := some 99
    qualityToggle := some false
    characterPrompts := some [⟨("girl"), ("bad"), some ⟨some qHalf, some qHalf⟩, none⟩]}

/-- Normalization output for `c3wit`. -/
def c3witOut : Metadata :=
  (processMetadata 1 1 c3wit).toOption.getD emptyMetadata

/-- C3 witness: the amended idempotence theorem applied to `c3wit` (second
run with different oracle draws). -/
theorem C3_idempotent_witness :
    processMetadata 1 1 c3wit = .ok c3witOut ∧
    (1 : Nat) ≠ 0 ∧
    (∀ cp ∈ c3wit.characterPrompts.getD ([]), C3cpOk cp) ∧
    processMetadata 2 2 c3witOut = .ok c3witOut :=
  ⟨rfl, by decide, by decide,
    C3_normalization_idempotent 1 1 c3wit c3witOut rfl (by decide) (by decide) 2 2⟩

end NekoAI
